import Mathlib

/-!
# Personal finance tracker: aggregation, transactions API, page state and form

A shallow embedding of four parts of the application:

* `getMonthlyData` of `src/components/ExpenseChart.js`, the function that folds
  the transaction list into monthly income / expense / net buckets;
* `handler` of `src/pages/api/transactions.js`, the CRUD request handler over
  the `transactions` collection;
* `handleEditTransaction` of `src/pages/index.js`, which reconciles the page's
  list with the answer to an update;
* `validateForm` and `handleSubmit` of `src/components/TransactionForm.js`.

Amounts are exact rationals.  JavaScript strings are Lean strings, read as their
list of characters.
-/

namespace ExpenseChart

/-- The two fields `getMonthlyData` reads from `new Date(transaction.date)`:
`getFullYear()` and `getMonth()` (0 = January, ..., 11 = December). -/
structure LocalDate where
  getFullYear : Nat
  getMonth : Fin 12
deriving DecidableEq, Repr

/-- A transaction as the chart consumes it: its date and its signed amount. -/
structure Transaction where
  date : LocalDate
  amount : ℚ
deriving DecidableEq, Repr

/-- One entry of `monthlyData`: `{ month, income, expenses, net }`. -/
structure Bucket where
  month : String
  income : ℚ
  expenses : ℚ
  net : ℚ
deriving DecidableEq, Repr

/-- `String.prototype.padStart(targetLength, c)` for a one-character pad. -/
def padStart (s : String) (targetLength : Nat) (c : Char) : String :=
  String.mk (List.replicate (targetLength - s.data.length) c ++ s.data)

/-- The template literal of line 9:
`${date.getFullYear()}-${String(date.getMonth() + 1).padStart(2, '0')}`. -/
def monthKey (date : LocalDate) : String :=
  toString date.getFullYear ++ "-" ++ padStart (toString (date.getMonth.val + 1)) 2 '0'

/-- The `en-US` short month names used by `toLocaleDateString`. -/
def shortMonth (m : Fin 12) : String :=
  match m.val with
  | 0 => "Jan" | 1 => "Feb" | 2 => "Mar" | 3 => "Apr" | 4 => "May" | 5 => "Jun"
  | 6 => "Jul" | 7 => "Aug" | 8 => "Sep" | 9 => "Oct" | 10 => "Nov" | _ => "Dec"

/-- Line 10: `date.toLocaleDateString('en-US', { year: 'numeric', month: 'short' })`,
for example `"Mar 2024"`.  The year shown is the year of the era, so the year
`0` (1 BC) is shown as `1`. -/
def monthName (date : LocalDate) : String :=
  shortMonth date.getMonth ++ " " ++
    toString (if date.getFullYear = 0 then 1 else date.getFullYear)

/-- `a.localeCompare(b)` on month labels: negative, zero or positive.  Every
label is three letters (one capital, two small), a space and the year's digits,
and on such strings the collation order is the order of the characters. -/
def localeCompare (a b : String) : Int :=
  if a.data < b.data then -1 else if a = b then 0 else 1

/-- The object `monthlyData`: its own string keys in insertion order, which is
the order `Object.values` enumerates them in. -/
abbrev MonthlyData := List (String × Bucket)

/-- Assignment through `monthlyData[key]`: the bucket stored under `key` is
replaced by `f` of it. -/
def MonthlyData.modify (md : MonthlyData) (key : String) (f : Bucket → Bucket) :
    MonthlyData :=
  md.map (fun p => if p.1 = key then (p.1, f p.2) else p)

/-- The body of the `forEach` callback, lines 8 to 27. -/
def addTransaction (monthlyData : MonthlyData) (transaction : Transaction) :
    MonthlyData :=
  let key := monthKey transaction.date
  let md1 : MonthlyData :=
    if (monthlyData.lookup key).isNone then
      monthlyData ++ [(key, ⟨monthName transaction.date, 0, 0, 0⟩)]
    else monthlyData
  let md2 : MonthlyData :=
    if transaction.amount > 0 then
      md1.modify key (fun b => { b with income := b.income + transaction.amount })
    else
      md1.modify key (fun b => { b with expenses := b.expenses + |transaction.amount| })
  md2.modify key (fun b => { b with net := b.income - b.expenses })

/-- The function `getMonthlyData`, lines 4 to 31: fold the transactions into
`monthlyData`, take `Object.values` and sort (stably) with
`(a, b) => a.month.localeCompare(b.month)`. -/
def getMonthlyData (transactions : List Transaction) : List Bucket :=
  ((transactions.foldl addTransaction []).map Prod.snd).insertionSort
    (fun a b => localeCompare a.month b.month ≤ 0)

/-- The sum of the positive amounts of the transactions dated in month `d`. -/
def incomeOf (transactions : List Transaction) (d : LocalDate) : ℚ :=
  ((transactions.filter (fun t => t.date = d ∧ 0 < t.amount)).map (fun t => t.amount)).sum

/-- The sum of the absolute values of the negative amounts of the transactions
dated in month `d`. -/
def expensesOf (transactions : List Transaction) (d : LocalDate) : ℚ :=
  ((transactions.filter (fun t => t.date = d ∧ t.amount < 0)).map (fun t => |t.amount|)).sum

/-- The bucket the specification describes for month `d`. -/
def bucketOf (transactions : List Transaction) (d : LocalDate) : Bucket :=
  ⟨monthName d, incomeOf transactions d, expensesOf transactions d,
    incomeOf transactions d - expensesOf transactions d⟩

/-- What `monthlyData` holds once `transactions` have been folded in: one entry
per month that occurs, under that month's key, holding that month's bucket. -/
def Folded (transactions : List Transaction) (md : MonthlyData) : Prop :=
  (md.map Prod.fst).Nodup ∧
    ∀ k b, (k, b) ∈ md ↔
      ∃ d, (∃ t ∈ transactions, t.date = d) ∧ k = monthKey d ∧ b = bucketOf transactions d

/-- The update of lines 21 to 27 on the bucket of the transaction's month. -/
def bump (transaction : Transaction) (b : Bucket) : Bucket :=
  if transaction.amount > 0 then
    { b with income := b.income + transaction.amount,
             net := b.income + transaction.amount - b.expenses }
  else
    { b with expenses := b.expenses + |transaction.amount|,
             net := b.income - (b.expenses + |transaction.amount|) }

end ExpenseChart

namespace DecimalText

/-- The number a list of decimal digit characters denotes, most significant
digit first, continuing from `acc`. -/
def value (acc : Nat) (ds : List Char) : Nat :=
  ds.foldl (fun a c => 10 * a + (c.toNat - 48)) acc

end DecimalText

namespace JS

/-- A JavaScript number: `NaN`, the two infinities, or a finite value.  A
finite value is kept exact: the rounding of a double inside its range is not
modelled, its range is (see `numberValue`). -/
inductive Number where
  | nan
  | posInf
  | negInf
  | finite (q : ℚ)
deriving DecidableEq, Repr

/-- The primitive values a parsed JSON body can hold in one of its fields;
`undefined` is an absent field. -/
inductive Value where
  | undefined
  | null
  | boolean (b : Bool)
  | number (n : Number)
  | string (s : String)
deriving DecidableEq, Repr

/-- Unary minus on numbers. -/
def Number.neg : Number → Number
  | .nan => .nan
  | .posInf => .negInf
  | .negInf => .posInf
  | .finite q => .finite (-q)

/-- The Number value of a mathematical value, as far as the range of a double
goes: from `2^1024 - 2^970` on (half way between the largest double and
`2^1024`) it is infinite, up to `2^(-1075)` (half way between `0` and the
smallest double) it is `0`, and in between the value is kept as it is. -/
def numberValue (q : ℚ) : Number :=
  if (2 : ℚ) ^ 1024 - (2 : ℚ) ^ 970 ≤ |q| then (if 0 ≤ q then .posInf else .negInf)
  else if |q| ≤ 1 / (2 : ℚ) ^ 1075 then .finite 0
  else .finite q

/-- The test `n >= 0`; a comparison with `NaN` is false. -/
def Number.geZero : Number → Bool
  | .nan => false
  | .posInf => true
  | .negInf => false
  | .finite q => decide (0 ≤ q)

/-- `ToBoolean`: `undefined`, `null`, `false`, `NaN`, `0` and `""` are falsy. -/
def Value.toBoolean : Value → Bool
  | .undefined => false
  | .null => false
  | .boolean b => b
  | .number .nan => false
  | .number (.finite q) => decide (q ≠ 0)
  | .number _ => true
  | .string s => decide (s ≠ "")

/-- White space and line terminators, the characters `trim` strips and numeric
strings may be surrounded with. -/
def isWhiteSpace (c : Char) : Bool :=
  c.toNat ∈ [9, 10, 11, 12, 13, 32, 160, 5760, 8232, 8233, 8239, 8287, 12288, 65279]
    || (8192 ≤ c.toNat && c.toNat ≤ 8202)

/-- `String.prototype.trimStart` on the characters of a string. -/
def trimStart (cs : List Char) : List Char :=
  cs.dropWhile isWhiteSpace

/-- `String.prototype.trimEnd` on the characters of a string. -/
def trimEnd (cs : List Char) : List Char :=
  (cs.reverse.dropWhile isWhiteSpace).reverse

/-- `String.prototype.trim`. -/
def trim (s : String) : String :=
  String.mk (trimEnd (trimStart s.data))

/-- An optional `ExponentPart`: `e` or `E`, an optional sign and at least one
digit.  Returns the exponent and what follows it; without a well-formed exponent
nothing is consumed. -/
def scanExponent (cs : List Char) : Int × List Char :=
  match cs with
  | [] => (0, [])
  | e :: r1 =>
    if e = 'e' ∨ e = 'E' then
      let signed : Bool × List Char :=
        match r1 with
        | '+' :: r => (false, r)
        | '-' :: r => (true, r)
        | _ => (false, r1)
      let ds := signed.2.takeWhile Char.isDigit
      if ds = [] then (0, cs)
      else
        ((if signed.1 then -(DecimalText.value 0 ds : Int) else (DecimalText.value 0 ds : Int)),
          signed.2.dropWhile Char.isDigit)
    else (0, cs)

/-- The longest prefix that is a `StrUnsignedDecimalLiteral`: `Infinity`, or
digits with an optional fraction and exponent.  Returns its value and the rest. -/
def scanUnsigned (cs : List Char) : Option (Number × List Char) :=
  if "Infinity".data.isPrefixOf cs then some (.posInf, cs.drop 8)
  else
    let int := cs.takeWhile Char.isDigit
    match cs.dropWhile Char.isDigit with
    | '.' :: r2 =>
      let frac := r2.takeWhile Char.isDigit
      if int = [] ∧ frac = [] then none
      else
        let ex := scanExponent (r2.dropWhile Char.isDigit)
        some (numberValue ((DecimalText.value 0 (int ++ frac) : ℚ) *
          (10 : ℚ) ^ (ex.1 - (frac.length : Int))), ex.2)
    | r1 =>
      if int = [] then none
      else
        let ex := scanExponent r1
        some (numberValue ((DecimalText.value 0 int : ℚ) * (10 : ℚ) ^ ex.1), ex.2)

/-- The longest prefix that is a `StrDecimalLiteral` (an optionally signed
`StrUnsignedDecimalLiteral`), with its value and the rest. -/
def scanDecimal (cs : List Char) : Option (Number × List Char) :=
  match cs with
  | '+' :: r => scanUnsigned r
  | '-' :: r => (scanUnsigned r).map (fun p => (p.1.neg, p.2))
  | _ => scanUnsigned cs

/-- The value of a digit character in the given radix, if it is one. -/
def radixDigit (radix : Nat) (c : Char) : Option Nat :=
  let v : Nat :=
    if c.isDigit then c.toNat - 48
    else if 'a'.toNat ≤ c.toNat ∧ c.toNat ≤ 'f'.toNat then c.toNat - 87
    else if 'A'.toNat ≤ c.toNat ∧ c.toNat ≤ 'F'.toNat then c.toNat - 55
    else radix
  if v < radix then some v else none

/-- A `NonDecimalIntegerLiteral`: `0x`, `0o` or `0b` (either case) followed by
at least one digit of that radix.  Returns its value and the rest. -/
def scanRadix (cs : List Char) : Option (Nat × List Char) :=
  match cs with
  | '0' :: p :: r =>
    let radix : Nat :=
      if p = 'x' ∨ p = 'X' then 16
      else if p = 'o' ∨ p = 'O' then 8
      else if p = 'b' ∨ p = 'B' then 2
      else 0
    let ds := r.takeWhile (fun c => (radixDigit radix c).isSome)
    if ds = [] then none
    else
      some (ds.foldl (fun a c => radix * a + (radixDigit radix c).getD 0) 0,
        r.dropWhile (fun c => (radixDigit radix c).isSome))
  | _ => none

/-- `StringToNumber`: surrounding white space is ignored, the empty string is
`0`, and anything that is not wholly a numeric literal is `NaN`. -/
def stringToNumber (s : String) : Number :=
  let t := trimStart s.data
  if t = [] then .finite 0
  else
    match scanRadix t with
    | some (n, rest) => if rest.all isWhiteSpace then numberValue n else .nan
    | none =>
      match scanDecimal t with
      | some (v, rest) => if rest.all isWhiteSpace then v else .nan
      | none => .nan

/-- `ToNumber` on a primitive value. -/
def toNumber : Value → Number
  | .undefined => .nan
  | .null => .finite 0
  | .boolean b => .finite (if b then 1 else 0)
  | .number n => n
  | .string s => stringToNumber s

/-- The global `isNaN(value)`: whether `ToNumber(value)` is `NaN`. -/
def isNaN (v : Value) : Bool :=
  match toNumber v with
  | .nan => true
  | _ => false

/-- The global `parseFloat(value)`: the value is converted to a string, leading
white space is skipped and the longest decimal-literal prefix is read; `NaN` when
there is none (as for `"undefined"`, `"null"`, `"true"`, `"false"` and `"NaN"`).
A number's own string reads back as that number. -/
def parseFloat : Value → Number
  | .number n => n
  | .string s =>
    match scanDecimal (trimStart s.data) with
    | some (v, _) => v
    | none => .nan
  | _ => .nan

end JS

namespace Api

/-- The store's native identifier, the 12-byte `ObjectId`, as the number its
bytes spell. -/
abbrev ObjectId := Nat

/-- A stored BSON date: milliseconds since the epoch. -/
abbrev Date := Int

/-- A document of the `transactions` collection. -/
structure Doc where
  _id : ObjectId
  description : String
  amount : JS.Number
  category : String
  date : Date
  type : JS.Value
  createdAt : Date
  updatedAt : Option Date
deriving DecidableEq, Repr

/-- What the handler takes from outside the repository for one request: the
driver's `ObjectId.isValid` and `new ObjectId(id)`, the `Date` constructor
applied to the body's `date`, the clock (`new Date()`), and the `_id` the driver
generates for an `insertOne`. -/
structure Env where
  isValid : JS.Value → Bool
  objectId : JS.Value → ObjectId
  newDate : JS.Value → Date
  now : Date
  insertedId : ObjectId

/-- The fields the handler destructures from `req.body`. -/
structure Body where
  id : JS.Value := .undefined
  description : JS.Value := .undefined
  amount : JS.Value := .undefined
  category : JS.Value := .undefined
  date : JS.Value := .undefined
  type : JS.Value := .undefined
deriving DecidableEq, Repr

/-- The request methods: `req.method`. -/
inductive Method where
  | GET
  | POST
  | PUT
  | DELETE
  | other (name : String)
deriving DecidableEq, Repr

/-- The JSON payload passed to `res.json`. -/
inductive Json where
  | null
  | error (error : String)
  | message (message : String)
  | doc (d : Doc)
  | docs (ds : List Doc)
deriving DecidableEq, Repr

/-- The response: `res.status(..)`, the `Allow` header if set, and the payload. -/
structure Response where
  status : Nat
  body : Json
  allow : List String := []
deriving DecidableEq, Repr

/-- The order of `.sort({ date: -1, _id: -1 })`: later dates first, and for equal
dates the larger `_id` first. -/
def sortsBefore (a b : Doc) : Prop :=
  b.date < a.date ∨ (a.date = b.date ∧ b._id ≤ a._id)

instance : DecidableRel sortsBefore := fun a b => by
  unfold sortsBefore
  exact inferInstance

/-- `collection.find({}).sort({ date: -1, _id: -1 }).toArray()`. -/
def findSorted (collection : List Doc) : List Doc :=
  collection.insertionSort sortsBefore

/-- `collection.findOne({ _id: id })`. -/
def findOne (collection : List Doc) (id : ObjectId) : Option Doc :=
  collection.find? (fun d => d._id = id)

/-- `collection.insertOne(doc)`: the collection's unique index on `_id` rejects
a duplicate (`none`, a thrown error); otherwise the document is added. -/
def insertOne (collection : List Doc) (doc : Doc) : Option (List Doc) :=
  if (findOne collection doc._id).isSome then none else some (collection ++ [doc])

/-- `collection.findOneAndUpdate({ _id: id }, { $set: .. }, { returnDocument:
'after' })`: the first match is updated; the result's `value` is the updated
document, or `null` (`none`) when nothing matches. -/
def findOneAndUpdate (collection : List Doc) (id : ObjectId) (set : Doc → Doc) :
    Option Doc × List Doc :=
  match collection with
  | [] => (none, [])
  | d :: rest =>
    if d._id = id then (some (set d), set d :: rest)
    else
      let r := findOneAndUpdate rest id set
      (r.1, d :: r.2)

/-- `collection.deleteOne({ _id: id })`: the first match is removed; returns
`deletedCount` and the collection afterwards. -/
def deleteOne (collection : List Doc) (id : ObjectId) : Nat × List Doc :=
  match collection with
  | [] => (0, [])
  | d :: rest =>
    if d._id = id then (1, rest)
    else
      let r := deleteOne rest id
      (r.1, d :: r.2)

/-- The call `description.trim()`: a `TypeError` (`none`) unless the value is a
string. -/
def callTrim : JS.Value → Option String
  | .string s => some (JS.trim s)
  | _ => none

/-- The expression `category?.trim() || 'General'`: a `TypeError` (`none`) when
the value is neither nullish nor a string. -/
def categoryOrGeneral : JS.Value → Option String
  | .undefined => some "General"
  | .null => some "General"
  | .string s => some (if JS.trim s = "" then "General" else JS.trim s)
  | _ => none

/-- The expression `type || (amount >= 0 ? 'income' : 'expense')`. -/
def typeOrSign (type amount : JS.Value) : JS.Value :=
  if type.toBoolean then type
  else if (JS.toNumber amount).geZero then .string "income" else .string "expense"

/-- The validation `!description || amount === undefined || amount === null ||
!date` of lines 52 and 94. -/
def missingRequired (body : Body) : Bool :=
  !body.description.toBoolean || body.amount = .undefined || body.amount = .null
    || !body.date.toBoolean

/-- The five normalised fields of lines 62 to 67 and 104 to 109. -/
structure Fields where
  description : String
  amount : JS.Number
  category : String
  date : Date
  type : JS.Value
deriving DecidableEq, Repr

/-- Evaluating the fields of the object literal in order; `none` when one of the
`trim` calls throws. -/
def normalise (env : Env) (body : Body) : Option Fields :=
  match callTrim body.description with
  | none => none
  | some description =>
    match categoryOrGeneral body.category with
    | none => none
    | some category =>
      some {
        description := description
        amount := JS.parseFloat body.amount
        category := category
        date := env.newDate body.date
        type := typeOrSign body.type body.amount }

/-- The `$set` of line 115 applied to a stored document. -/
def applySet (f : Fields) (updatedAt : Date) (d : Doc) : Doc :=
  { d with
    description := f.description
    amount := f.amount
    category := f.category
    date := f.date
    type := f.type
    updatedAt := some updatedAt }

/-- The document a POST inserts. -/
def created (env : Env) (f : Fields) : Doc :=
  { _id := env.insertedId
    description := f.description
    amount := f.amount
    category := f.category
    date := f.date
    type := f.type
    createdAt := env.now
    updatedAt := none }

/-- The request handler of `pages/api/transactions.js` over a reachable
database: the response and the collection afterwards. -/
def handler (env : Env) (method : Method) (body : Body) (collection : List Doc) :
    Response × List Doc :=
  match method with
  | .GET => ({ status := 200, body := .docs (findSorted collection) }, collection)
  | .POST =>
    if missingRequired body then
      ({ status := 400, body := .error "Missing required fields: description, amount, date" },
        collection)
    else if JS.isNaN body.amount then
      ({ status := 400, body := .error "Amount must be a valid number" }, collection)
    else
      match normalise env body with
      | none => ({ status := 500, body := .error "Failed to add transaction" }, collection)
      | some f =>
        let transaction : Doc :=
          { _id := env.insertedId
            description := f.description
            amount := f.amount
            category := f.category
            date := f.date
            type := f.type
            createdAt := env.now
            updatedAt := none }
        match insertOne collection transaction with
        | none => ({ status := 500, body := .error "Failed to add transaction" }, collection)
        | some collection1 =>
          match findOne collection1 env.insertedId with
          | some newTransaction => ({ status := 201, body := .doc newTransaction }, collection1)
          | none => ({ status := 201, body := .null }, collection1)
  | .PUT =>
    if !body.id.toBoolean then
      ({ status := 400, body := .error "Transaction ID is required" }, collection)
    else if !env.isValid body.id then
      ({ status := 400, body := .error "Invalid transaction ID" }, collection)
    else if missingRequired body then
      ({ status := 400, body := .error "Missing required fields: description, amount, date" },
        collection)
    else if JS.isNaN body.amount then
      ({ status := 400, body := .error "Amount must be a valid number" }, collection)
    else
      match normalise env body with
      | none => ({ status := 500, body := .error "Failed to update transaction" }, collection)
      | some f =>
        match findOneAndUpdate collection (env.objectId body.id) (applySet f env.now) with
        | (none, collection1) =>
          ({ status := 404, body := .error "Transaction not found" }, collection1)
        | (some value, collection1) => ({ status := 200, body := .doc value }, collection1)
  | .DELETE =>
    if !body.id.toBoolean then
      ({ status := 400, body := .error "Transaction ID is required" }, collection)
    else if !env.isValid body.id then
      ({ status := 400, body := .error "Invalid transaction ID" }, collection)
    else
      match deleteOne collection (env.objectId body.id) with
      | (0, collection1) =>
        ({ status := 404, body := .error "Transaction not found" }, collection1)
      | (_, collection1) =>
        ({ status := 200, body := .message "Transaction deleted successfully" }, collection1)
  | .other name =>
    ({ status := 405, body := .error ("Method " ++ name ++ " not allowed"),
       allow := ["GET", "POST", "PUT", "DELETE"] }, collection)

/-- A driver and clock to run the handler with: an id is valid when it is a
string of 24 hexadecimal digits, and its `ObjectId` is the number they spell. -/
def sampleEnv : Env where
  isValid := fun v =>
    match v with
    | .string s => s.data.length = 24 ∧ s.data.all (fun c => (JS.radixDigit 16 c).isSome)
    | _ => false
  objectId := fun v =>
    match v with
    | .string s => s.data.foldl (fun a c => 16 * a + (JS.radixDigit 16 c).getD 0) 0
    | _ => 0
  newDate := fun v =>
    match v with
    | .number (.finite q) => q.floor
    | _ => 0
  now := 1700000000000
  insertedId := 1

end Api

namespace Api

/-- A stored document to run the handler on. -/
def sampleCoffee : Doc where
  _id := 1
  description := "Coffee"
  amount := .finite (-9 / 2)
  category := "Food"
  date := 1709251200000
  type := .string "expense"
  createdAt := 1700000000000
  updatedAt := none

/-- A second stored document, of the same date. -/
def sampleSalary : Doc where
  _id := 2
  description := "Salary"
  amount := .finite 100
  category := "General"
  date := 1709251200000
  type := .string "income"
  createdAt := 1700000000001
  updatedAt := none

end Api

namespace Home

/-- A transaction as the page holds it: the JSON of a stored document, with the
`_id` serialised as a string. -/
structure Transaction where
  _id : String
  description : String
  amount : JS.Value
  category : String
  date : String
  type : JS.Value
  createdAt : String
  updatedAt : Option String
deriving DecidableEq, Repr

/-- The component state of `Home` that the edit handlers read and write. -/
structure State where
  transactions : List Transaction
  error : Option String
  editingTransaction : Option Transaction
  successMessage : String
deriving DecidableEq, Repr

/-- How the `fetch` of `handleEditTransaction` ends: the promise (or
`response.json()`) rejects with an error, the response is not `ok` and carries
the body's `error` field (if any), or the response is `ok` and carries the
updated transaction. -/
inductive Reply where
  | rejected (message : String)
  | notOk (error : Option String)
  | ok (updatedTransaction : Transaction)
deriving DecidableEq, Repr

/-- The expression `errorData.error || 'Failed to update transaction'`. -/
def errorOrDefault : Option String → String
  | some e => if e = "" then "Failed to update transaction" else e
  | none => "Failed to update transaction"

/-- The function `handleEditTransaction`, lines 61 to 90, given how the request
ends.  Reading `editingTransaction._id` with no edit target throws inside the
`try`, which ends in the `catch` like any other failure.  The timer that clears
the success message later is left out. -/
def handleEditTransaction (state : State) (reply : Reply) : State :=
  match state.editingTransaction with
  | none =>
    { state with error := some "Cannot read properties of null (reading '_id')" }
  | some _ =>
    match reply with
    | .rejected message => { state with error := some message }
    | .notOk error => { state with error := some (errorOrDefault error) }
    | .ok updatedTransaction =>
      { state with
        transactions := state.transactions.map
          (fun t => if t._id = updatedTransaction._id then updatedTransaction else t)
        editingTransaction := none
        successMessage := "Transaction updated successfully!" }

/-- The function `handleEdit`, lines 116 to 121.  `toISODay` stands for
`new Date(date).toISOString().split('T')[0]`, which throws (`none`) on a date
that does not parse; the state is then left as it was. -/
def handleEdit (toISODay : String → Option String) (state : State)
    (transaction : Transaction) : State :=
  match toISODay transaction.date with
  | none => state
  | some day => { state with editingTransaction := some { transaction with date := day } }

/-- The function `handleCancelEdit`, lines 123 to 125. -/
def handleCancelEdit (state : State) : State :=
  { state with editingTransaction := none }

/-- A transaction of the page, to run the handlers on. -/
def sampleTarget : Transaction where
  _id := "000000000000000000000001"
  description := "Coffee"
  amount := .number (.finite (-9 / 2))
  category := "Food"
  date := "2024-03-01"
  type := .string "expense"
  createdAt := "2024-03-01T08:00:00.000Z"
  updatedAt := none

/-- A page state to run the handlers on: two transactions, the first of them
being edited. -/
def sampleState : State where
  transactions :=
    [sampleTarget,
     { _id := "000000000000000000000002", description := "Salary",
       amount := .number (.finite 100), category := "General", date := "2024-03-01",
       type := .string "income", createdAt := "2024-03-01T09:00:00.000Z", updatedAt := none }]
  error := none
  editingTransaction := some sampleTarget
  successMessage := ""

end Home

namespace TransactionForm

/-- The state `formData`: the amount is the number of the transaction being
edited or the text of the amount input, the date and the description are text. -/
structure FormData where
  amount : JS.Value
  date : String
  description : String
deriving DecidableEq, Repr

/-- The object `newErrors`: for each field the message recorded, if any. -/
structure Errors where
  amount : Option String := none
  date : Option String := none
  description : Option String := none
deriving DecidableEq, Repr

/-- The `length` of a JavaScript string: its number of UTF-16 code units, two
for a character outside the basic plane. -/
def length (s : String) : Nat :=
  (s.data.map (fun c => if c.toNat < 65536 then 1 else 2)).sum

/-- The comparison `parseFloat(value) === 0`. -/
def parsesToZero (v : JS.Value) : Bool :=
  match JS.parseFloat v with
  | .finite q => decide (q = 0)
  | _ => false

/-- The errors `validateForm` collects, lines 14 to 30. -/
def newErrors (formData : FormData) : Errors where
  amount :=
    if !formData.amount.toBoolean then some "Amount is required"
    else if JS.isNaN formData.amount || parsesToZero formData.amount then
      some "Amount must be a valid number"
    else none
  date := if formData.date = "" then some "Date is required" else none
  description :=
    if JS.trim formData.description = "" then some "Description is required"
    else if length (JS.trim formData.description) < 3 then
      some "Description must be at least 3 characters"
    else none

/-- The number of keys of an errors object: `Object.keys(newErrors).length`. -/
def Errors.keys (e : Errors) : Nat :=
  (if e.amount.isSome then 1 else 0) + (if e.date.isSome then 1 else 0)
    + (if e.description.isSome then 1 else 0)

/-- The function `validateForm`, lines 13 to 34: its return value. -/
def validateForm (formData : FormData) : Bool :=
  (newErrors formData).keys = 0

/-- The object `transactionData` passed to `onSubmit`, lines 44 to 48. -/
structure TransactionData where
  amount : JS.Number
  date : String
  description : String
deriving DecidableEq, Repr

/-- The function `handleSubmit`, lines 36 to 50: the argument `onSubmit` is
called with, or `none` when it returns without calling `onSubmit`. -/
def handleSubmit (formData : FormData) : Option TransactionData :=
  if !validateForm formData then none
  else
    some {
      amount := JS.parseFloat formData.amount
      date := formData.date
      description := JS.trim formData.description }

/-- In the specification's words: the amount is a valid non-zero number.  A
number is one when it is finite and not zero; a text is one when, as a whole, it
reads (`StringToNumber`) as a finite number that is not zero. -/
def IsValidNonZero : JS.Value → Prop
  | .number n => ∃ q : ℚ, n = .finite q ∧ q ≠ 0
  | .string s => ∃ q : ℚ, JS.stringToNumber s = .finite q ∧ q ≠ 0
  | _ => False

/-- The amounts the form can hold: `undefined`, `null`, a number that is not
infinite (the amount of the transaction being edited), or a text that is empty
or has something other than white space in it, is not a `0x`, `0o` or `0b`
literal and does not read as an infinite value (the amount input has
`type="number"`). -/
def plainAmount : JS.Value → Bool
  | .undefined => true
  | .null => true
  | .boolean _ => false
  | .number n => decide (n ≠ .posInf ∧ n ≠ .negInf)
  | .string s =>
    decide ((s = "" ∨ JS.trimStart s.data ≠ []) ∧
      JS.scanRadix (JS.trimStart s.data) = none ∧
      JS.stringToNumber s ≠ .posInf ∧ JS.stringToNumber s ≠ .negInf)

/-- A filled-in form to run the validation on: the amount text `" -4.50 "`, a
date, and a description with white space around it. -/
def sampleForm : FormData where
  amount := .string " -4.50 "
  date := "2024-03-01"
  description := "  Coffee\t"

end TransactionForm

namespace JS

/-- In the specification's words: `t` is `s` trimmed, that is, `s` is `t` with
white space (and nothing else) before and after it, and `t` neither starts nor
ends with white space. -/
def IsTrimmed (s t : String) : Prop :=
  ∃ pre post : List Char, s.data = pre ++ t.data ++ post ∧
    (∀ c ∈ pre, isWhiteSpace c = true) ∧ (∀ c ∈ post, isWhiteSpace c = true) ∧
    (∀ c, t.data.head? = some c → isWhiteSpace c = false) ∧
    (∀ c, t.data.getLast? = some c → isWhiteSpace c = false)

/-- In the specification's words: `s` is blank, empty or white space only. -/
def IsBlank (s : String) : Prop :=
  ∀ c ∈ s.data, isWhiteSpace c = true

end JS

namespace DecimalText

theorem digitChar_toNat (d : Nat) (h : d < 10) : (Nat.digitChar d).toNat - 48 = d := by
  interval_cases d <;> rfl

theorem toDigitsCore_append (fuel : Nat) : ∀ (n : Nat) (ds : List Char),
    Nat.toDigitsCore 10 fuel n ds = Nat.toDigitsCore 10 fuel n [] ++ ds := by
  induction fuel with
  | zero => intro n ds; simp [Nat.toDigitsCore]
  | succ f ih =>
    intro n ds
    simp only [Nat.toDigitsCore]
    split
    · simp
    · rw [ih (n / 10) (_ :: ds), ih (n / 10) [_]]; simp

theorem value_toDigitsCore (fuel : Nat) : ∀ n : Nat, n < fuel →
    value 0 (Nat.toDigitsCore 10 fuel n []) = n := by
  induction fuel with
  | zero => intro n h; omega
  | succ f ih =>
    intro n h
    simp only [Nat.toDigitsCore]
    split
    · rename_i h0
      have hn : n % 10 = n := by omega
      have hd := digitChar_toNat (n % 10) (Nat.mod_lt _ (by decide))
      simp only [value, List.foldl_cons, List.foldl_nil, hd]
      omega
    · rename_i h0
      rw [toDigitsCore_append]
      have hlt : n / 10 < f := by omega
      have := ih (n / 10) hlt
      simp only [value] at this
      simp only [value, List.foldl_append, List.foldl_cons, List.foldl_nil, this,
        digitChar_toNat (n % 10) (Nat.mod_lt _ (by decide))]
      omega

theorem toString_data_injective (m n : Nat)
    (h : (toString m).data = (toString n).data) : m = n := by
  have hm : value 0 (toString m).data = m := value_toDigitsCore (m + 1) m (by omega)
  have hn : value 0 (toString n).data = n := value_toDigitsCore (n + 1) n (by omega)
  rw [h] at hm
  exact hm.symm.trans hn

end DecimalText

namespace ExpenseChart

theorem padded_month_length : ∀ m : Fin 12,
    (padStart (toString (m.val + 1)) 2 '0').data.length = 2 := by decide

theorem padded_month_injective : ∀ m m' : Fin 12,
    padStart (toString (m.val + 1)) 2 '0' = padStart (toString (m'.val + 1)) 2 '0' →
      m = m' := by decide

theorem monthKey_injective (d d' : LocalDate) (h : monthKey d = monthKey d') : d = d' := by
  obtain ⟨y, m⟩ := d
  obtain ⟨y', m'⟩ := d'
  have h1 : (monthKey ⟨y, m⟩).data = (monthKey ⟨y', m'⟩).data := by rw [h]
  simp only [monthKey, String.data_append, List.append_assoc] at h1
  have h2 := List.append_inj' h1 (by
    simp only [List.length_append, padded_month_length])
  obtain ⟨hy, hm⟩ := h2
  have hy' : y = y' := DecimalText.toString_data_injective y y' hy
  have hm' : m = m' := by
    apply padded_month_injective
    have := List.append_cancel_left hm
    exact String.ext this
  rw [hy', hm']

theorem modify_keys (md : MonthlyData) (key : String) (f : Bucket → Bucket) :
    (md.modify key f).map Prod.fst = md.map Prod.fst := by
  simp only [MonthlyData.modify, List.map_map]
  apply List.map_congr_left
  intro p _
  by_cases hp : p.1 = key <;> simp [hp]

theorem mem_modify (md : MonthlyData) (key : String) (f : Bucket → Bucket) (k : String)
    (b : Bucket) :
    (k, b) ∈ md.modify key f ↔
      ∃ b0, (k, b0) ∈ md ∧ b = if k = key then f b0 else b0 := by
  simp only [MonthlyData.modify, List.mem_map]
  constructor
  · rintro ⟨⟨k1, b1⟩, hmem, heq⟩
    by_cases hk : k1 = key
    · simp only [hk, if_true, Prod.mk.injEq] at heq
      obtain ⟨rfl, rfl⟩ := heq
      exact ⟨b1, hk ▸ hmem, by simp⟩
    · simp only [hk, if_false, Prod.mk.injEq] at heq
      obtain ⟨rfl, rfl⟩ := heq
      exact ⟨b1, hmem, by simp [hk]⟩
  · rintro ⟨b0, hmem, rfl⟩
    refine ⟨(k, b0), hmem, ?_⟩
    by_cases hk : k = key <;> simp [hk]

theorem addTransaction_eq (md : MonthlyData) (t : Transaction) :
    addTransaction md t =
      (if (md.lookup (monthKey t.date)).isNone then
          md ++ [(monthKey t.date, ⟨monthName t.date, 0, 0, 0⟩)]
        else md).modify (monthKey t.date) (bump t) := by
  unfold addTransaction
  simp only [MonthlyData.modify, bump]
  split <;> split <;>
    · simp only [List.map_map]
      apply List.map_congr_left
      intro p _
      by_cases hp : p.1 = monthKey t.date <;> simp [hp]

theorem incomeOf_append (txs : List Transaction) (t : Transaction) (d : LocalDate) :
    incomeOf (txs ++ [t]) d =
      incomeOf txs d + (if t.date = d ∧ 0 < t.amount then t.amount else 0) := by
  unfold incomeOf
  by_cases h : t.date = d ∧ 0 < t.amount
  · simp [List.filter_append, List.filter_cons, h]
  · simp [List.filter_append, List.filter_cons, h]

theorem expensesOf_append (txs : List Transaction) (t : Transaction) (d : LocalDate) :
    expensesOf (txs ++ [t]) d =
      expensesOf txs d + (if t.date = d ∧ t.amount < 0 then |t.amount| else 0) := by
  unfold expensesOf
  by_cases h : t.date = d ∧ t.amount < 0
  · simp [List.filter_append, List.filter_cons, h]
  · simp [List.filter_append, List.filter_cons, h]

theorem bucketOf_append_other (txs : List Transaction) (t : Transaction) (d : LocalDate)
    (h : t.date ≠ d) : bucketOf (txs ++ [t]) d = bucketOf txs d := by
  simp [bucketOf, incomeOf_append, expensesOf_append, h]

theorem bucketOf_append_same (txs : List Transaction) (t : Transaction) :
    bucketOf (txs ++ [t]) t.date = bump t (bucketOf txs t.date) := by
  unfold bump
  by_cases h : t.amount > 0
  · have h2 : ¬ t.amount < 0 := not_lt.mpr h.le
    simp [bucketOf, incomeOf_append, expensesOf_append, h, h2]
  · have h3 : ¬ 0 < t.amount := h
    by_cases h0 : t.amount < 0
    · simp [bucketOf, incomeOf_append, expensesOf_append, h3, h0]
    · have : t.amount = 0 := le_antisymm (not_lt.mp h3) (not_lt.mp h0)
      simp [bucketOf, incomeOf_append, expensesOf_append, this]

theorem bucketOf_absent (txs : List Transaction) (d : LocalDate)
    (h : ∀ t ∈ txs, t.date ≠ d) : bucketOf txs d = ⟨monthName d, 0, 0, 0⟩ := by
  have h1 : txs.filter (fun t => t.date = d ∧ 0 < t.amount) = [] := by
    rw [List.filter_eq_nil_iff]
    intro t ht
    simp [h t ht]
  have h2 : txs.filter (fun t => t.date = d ∧ t.amount < 0) = [] := by
    rw [List.filter_eq_nil_iff]
    intro t ht
    simp [h t ht]
  unfold bucketOf incomeOf expensesOf
  rw [h1, h2]
  simp

theorem folded_step (txs : List Transaction) (md : MonthlyData) (t : Transaction)
    (h : Folded txs md) : Folded (txs ++ [t]) (addTransaction md t) := by
  obtain ⟨hnd, hmem⟩ := h
  rw [addTransaction_eq]
  -- the object after the `if (!monthlyData[monthKey])` block
  have hmd1 : ∃ md1 : MonthlyData, md1 =
      (if (md.lookup (monthKey t.date)).isNone then
          md ++ [(monthKey t.date, ⟨monthName t.date, 0, 0, 0⟩)]
        else md) ∧ (md1.map Prod.fst).Nodup ∧
      ∀ k b, (k, b) ∈ md1 ↔
        ∃ d, ((∃ u ∈ txs, u.date = d) ∨ d = t.date) ∧ k = monthKey d ∧ b = bucketOf txs d := by
    refine ⟨_, rfl, ?_⟩
    by_cases hl : (md.lookup (monthKey t.date)).isNone
    · have habs : ∀ b, (monthKey t.date, b) ∉ md := by
        intro b hb
        have hk : monthKey t.date ∈ md.map Prod.fst := List.mem_map.mpr ⟨_, hb, rfl⟩
        rw [Option.isNone_iff_eq_none, List.lookup_eq_none_iff] at hl
        obtain ⟨p, hp, hpk⟩ := List.mem_map.mp hk
        have := hl p hp
        simp [hpk] at this
      have hno : ∀ u ∈ txs, u.date ≠ t.date := by
        intro u hu hd
        exact habs (bucketOf txs t.date) ((hmem _ _).mpr ⟨t.date, ⟨u, hu, hd⟩, rfl, rfl⟩)
      simp only [hl, if_true]
      constructor
      · rw [List.map_append, List.nodup_append]
        refine ⟨hnd, by simp, ?_⟩
        intro k hk1 hk2
        simp only [List.map_cons, List.map_nil, List.mem_singleton] at hk2
        obtain ⟨p, hp, hpk⟩ := List.mem_map.mp hk1
        exact habs p.2 (by rw [← hk2, ← hpk]; exact hp)
      · intro k b
        rw [List.mem_append, hmem]
        constructor
        · rintro (⟨d, hd, hk, hb⟩ | hlast)
          · exact ⟨d, Or.inl hd, hk, hb⟩
          · simp only [List.mem_singleton, Prod.mk.injEq] at hlast
            exact ⟨t.date, Or.inr rfl, hlast.1, by rw [hlast.2, bucketOf_absent txs _ hno]⟩
        · rintro ⟨d, hd | hd, hk, hb⟩
          · exact Or.inl ⟨d, hd, hk, hb⟩
          · right
            subst hd
            simp [hk, hb, bucketOf_absent txs _ hno]
    · rw [if_neg hl]
      refine ⟨hnd, ?_⟩
      have hex : ∃ u ∈ txs, u.date = t.date := by
        rw [Option.isNone_iff_eq_none, List.lookup_eq_none_iff] at hl
        push_neg at hl
        obtain ⟨p, hp, hpk⟩ := hl
        have hpk' : p.1 = monthKey t.date :=
          (by simpa using hpk : monthKey t.date = p.1).symm
        obtain ⟨d, hd, hk, _⟩ := (hmem p.1 p.2).mp hp
        have : d = t.date := monthKey_injective _ _ (hk.symm.trans hpk')
        exact this ▸ hd
      intro k b
      rw [hmem]
      constructor
      · rintro ⟨d, hd, hk, hb⟩
        exact ⟨d, Or.inl hd, hk, hb⟩
      · rintro ⟨d, hd | hd, hk, hb⟩
        · exact ⟨d, hd, hk, hb⟩
        · exact ⟨d, hd ▸ hex, hk, hb⟩
  obtain ⟨md1, hmd1eq, hnd1, hmem1⟩ := hmd1
  rw [← hmd1eq]
  refine ⟨by rw [modify_keys]; exact hnd1, ?_⟩
  intro k b
  rw [mem_modify]
  constructor
  · rintro ⟨b0, hb0, hb⟩
    obtain ⟨d, hd, hk, hbd⟩ := (hmem1 k b0).mp hb0
    refine ⟨d, ?_, hk, ?_⟩
    · rcases hd with ⟨u, hu, hud⟩ | hd
      · exact ⟨u, List.mem_append_left _ hu, hud⟩
      · exact ⟨t, by simp, hd.symm⟩
    · by_cases hkk : k = monthKey t.date
      · have hdd : d = t.date := monthKey_injective _ _ (hk.symm.trans hkk)
        rw [hb, if_pos hkk, hbd, hdd, bucketOf_append_same]
      · have hdd : t.date ≠ d := fun e => hkk (by rw [hk, e])
        rw [hb, if_neg hkk, hbd, bucketOf_append_other _ _ _ hdd]
  · rintro ⟨d, ⟨u, hu, hud⟩, hk, hb⟩
    have hd1 : (∃ u ∈ txs, u.date = d) ∨ d = t.date := by
      rcases List.mem_append.mp hu with hu | hu
      · exact Or.inl ⟨u, hu, hud⟩
      · right
        simp only [List.mem_singleton] at hu
        rw [← hud, hu]
    refine ⟨bucketOf txs d, (hmem1 _ _).mpr ⟨d, hd1, hk, rfl⟩, ?_⟩
    by_cases hkk : k = monthKey t.date
    · have hdd : d = t.date := monthKey_injective _ _ (hk.symm.trans hkk)
      rw [if_pos hkk, hb, hdd, bucketOf_append_same]
    · have hdd : t.date ≠ d := fun e => hkk (by rw [hk, e])
      rw [if_neg hkk, hb, bucketOf_append_other _ _ _ hdd]

theorem folded_foldl (rest : List Transaction) : ∀ (txs : List Transaction)
    (md : MonthlyData), Folded txs md →
      Folded (txs ++ rest) (rest.foldl addTransaction md) := by
  induction rest with
  | nil => intro txs md h; simpa using h
  | cons t rest ih =>
    intro txs md h
    have := ih (txs ++ [t]) (addTransaction md t) (folded_step txs md t h)
    simpa using this

theorem folded_all (txs : List Transaction) :
    Folded txs (txs.foldl addTransaction []) := by
  have h0 : Folded [] ([] : MonthlyData) := by
    refine ⟨by simp, ?_⟩
    intro k b
    simp
  simpa using folded_foldl txs [] [] h0

theorem values_perm (txs : List Transaction) :
    ((txs.foldl addTransaction []).map Prod.snd).Perm
      (((txs.map (fun t => t.date)).dedup).map (bucketOf txs)) := by
  obtain ⟨hnd, hmem⟩ := folded_all txs
  have hperm : (txs.foldl addTransaction []).Perm
      (((txs.map (fun t => t.date)).dedup).map (fun d => (monthKey d, bucketOf txs d))) := by
    rw [List.perm_ext_iff_of_nodup (List.Nodup.of_map _ hnd)]
    · rintro ⟨k, b⟩
      rw [hmem, List.mem_map]
      constructor
      · rintro ⟨d, ⟨u, hu, hud⟩, hk, hb⟩
        exact ⟨d, List.mem_dedup.mpr (List.mem_map.mpr ⟨u, hu, hud⟩), by rw [hk, hb]⟩
      · rintro ⟨d, hd, heq⟩
        obtain ⟨u, hu, hud⟩ := List.mem_map.mp (List.mem_dedup.mp hd)
        simp only [Prod.mk.injEq] at heq
        exact ⟨d, ⟨u, hu, hud⟩, heq.1.symm, heq.2.symm⟩
    · apply List.Nodup.map _ (List.nodup_dedup _)
      intro d d' h
      simp only [Prod.mk.injEq] at h
      exact monthKey_injective d d' h.1
  have := hperm.map Prod.snd
  simpa [List.map_map, Function.comp_def] using this

/-- C1 (the code at the failing input): for one transaction in January 2024 and
one in February 2024, `getMonthlyData` returns the February bucket before the
January bucket, because the sort compares the labels `"Feb 2024"` and
`"Jan 2024"` as text. -/
theorem getMonthlyData_orders_by_label :
    (getMonthlyData [⟨⟨2024, 0⟩, 5⟩, ⟨⟨2024, 1⟩, -3⟩]).map (fun b => b.month)
      = ["Feb 2024", "Jan 2024"] := by
  decide

/-- C2: `getMonthlyData` returns, up to order, exactly one bucket for each
distinct (year, month) among the transaction dates and nothing else; the bucket
of a month holds the sum of that month's positive amounts as income and the sum
of the absolute values of that month's negative amounts as expenses; the empty
list gives the empty sequence. -/
theorem getMonthlyData_one_bucket_per_month (transactions : List Transaction) :
    (getMonthlyData transactions).Perm
        (((transactions.map (fun t => t.date)).dedup).map (bucketOf transactions)) ∧
      getMonthlyData [] = [] := by
  refine ⟨?_, rfl⟩
  unfold getMonthlyData
  exact (List.perm_insertionSort _ _).trans (values_perm transactions)

/-- C3: in every bucket `getMonthlyData` returns, `net` is `income - expenses`
and both `income` and `expenses` are non-negative. -/
theorem getMonthlyData_net_and_signs (transactions : List Transaction) (b : Bucket)
    (hb : b ∈ getMonthlyData transactions) :
    b.net = b.income - b.expenses ∧ 0 ≤ b.income ∧ 0 ≤ b.expenses := by
  unfold getMonthlyData at hb
  rw [List.mem_insertionSort] at hb
  have hb2 := (values_perm transactions).mem_iff.mp hb
  obtain ⟨d, _, rfl⟩ := List.mem_map.mp hb2
  refine ⟨rfl, ?_, ?_⟩
  · apply List.sum_nonneg
    intro x hx
    obtain ⟨t, ht, rfl⟩ := List.mem_map.mp hx
    have := (List.mem_filter.mp ht).2
    simp only [decide_eq_true_eq] at this
    exact this.2.le
  · apply List.sum_nonneg
    intro x hx
    obtain ⟨t, _, rfl⟩ := List.mem_map.mp hx
    exact abs_nonneg _

theorem getMonthlyData_net_and_signs_witness :
    (⟨"Mar 2024", 0, 9 / 2, -(9 / 2)⟩ : Bucket) ∈ getMonthlyData [⟨⟨2024, 2⟩, -(9 / 2)⟩] ∧
      ((-(9 / 2) : ℚ) = 0 - 9 / 2 ∧ (0 : ℚ) ≤ 0 ∧ (0 : ℚ) ≤ 9 / 2) :=
  have hmem : (⟨"Mar 2024", 0, 9 / 2, -(9 / 2)⟩ : Bucket) ∈
      getMonthlyData [⟨⟨2024, 2⟩, -(9 / 2)⟩] := by
    norm_num [getMonthlyData, addTransaction, MonthlyData.modify, monthKey, monthName,
      shortMonth, padStart]
    exact ⟨by decide, (abs_of_pos (by norm_num)).symm⟩
  ⟨hmem, getMonthlyData_net_and_signs _ _ hmem⟩

end ExpenseChart

namespace JS

theorem numberValue_zero : numberValue 0 = .finite 0 := by
  norm_num [numberValue]

theorem radixDigit_zero (c : Char) : radixDigit 0 c = none := by
  simp [radixDigit]

theorem scanUnsigned_radix_literal (p : Char) (r : List Char)
    (hp : p = 'x' ∨ p = 'X' ∨ p = 'o' ∨ p = 'O' ∨ p = 'b' ∨ p = 'B') :
    scanUnsigned ('0' :: p :: r) = some (.finite 0, p :: r) := by
  rcases hp with rfl | rfl | rfl | rfl | rfl | rfl <;>
    simp [scanUnsigned, scanExponent, List.isPrefixOf, List.takeWhile, List.dropWhile,
      DecimalText.value, numberValue_zero]

/-- A string that starts with a radix literal reads as `0` for `parseFloat`. -/
theorem scanDecimal_of_scanRadix (cs : List Char) (h : (scanRadix cs).isSome = true) :
    ∃ rest, scanDecimal cs = some (.finite 0, rest) := by
  unfold scanRadix at h
  split at h
  · rename_i p r
    by_cases hp : p = 'x' ∨ p = 'X' ∨ p = 'o' ∨ p = 'O' ∨ p = 'b' ∨ p = 'B'
    · refine ⟨p :: r, ?_⟩
      have : scanDecimal ('0' :: p :: r) = scanUnsigned ('0' :: p :: r) := by
        simp [scanDecimal]
      rw [this, scanUnsigned_radix_literal p r hp]
    · exfalso
      push_neg at hp
      obtain ⟨h1, h2, h3, h4, h5, h6⟩ := hp
      simp [h1, h2, h3, h4, h5, h6, radixDigit_zero] at h
  · simp at h

/-- On an amount the handler accepts, `parseFloat` and `ToNumber` give the same
value whenever `parseFloat` gives a non-zero finite one. -/
theorem toNumber_of_parseFloat (v : Value) (q : ℚ) (hacc : isNaN v = false)
    (hp : parseFloat v = .finite q) (hq : q ≠ 0) : toNumber v = .finite q := by
  cases v with
  | undefined => simp [parseFloat] at hp
  | null => simp [parseFloat] at hp
  | boolean b => simp [parseFloat] at hp
  | number n => simpa [parseFloat, toNumber] using hp
  | string s =>
    simp only [isNaN, toNumber, stringToNumber] at hacc
    simp only [parseFloat] at hp
    simp only [toNumber, stringToNumber]
    by_cases ht : trimStart s.data = []
    · rw [ht] at hp
      simp [scanDecimal, scanUnsigned, List.isPrefixOf] at hp
    · rw [if_neg ht] at hacc ⊢
      cases hr : scanRadix (trimStart s.data) with
      | some nr =>
        obtain ⟨rest, hrest⟩ := scanDecimal_of_scanRadix (trimStart s.data) (by rw [hr]; rfl)
        rw [hrest] at hp
        simp only [Number.finite.injEq] at hp
        exact absurd hp.symm hq
      | none =>
        rw [hr] at hacc
        simp only at hacc ⊢
        cases hd : scanDecimal (trimStart s.data) with
        | none => rw [hd] at hp; simp at hp
        | some vr =>
          obtain ⟨v, rest⟩ := vr
          rw [hd] at hp hacc
          simp only at hp hacc ⊢
          by_cases hall : rest.all isWhiteSpace = true
          · rw [if_pos hall]; exact hp
          · rw [if_neg hall] at hacc
            simp at hacc

theorem isDigit_of_isWhiteSpace (c : Char) (h : isWhiteSpace c = true) : c.isDigit = false := by
  unfold isWhiteSpace at h
  unfold Char.isDigit
  have hv : c.val.toNat = c.toNat := rfl
  simp only [Bool.or_eq_true, Bool.and_eq_true, decide_eq_true_eq, List.mem_cons,
    List.mem_singleton, List.not_mem_nil, or_false] at h
  have : ¬ (48 ≤ c.toNat ∧ c.toNat ≤ 57) := by omega
  simp only [ge_iff_le, UInt32.le_def, Bool.and_eq_false_imp, decide_eq_true_eq,
    decide_eq_false_iff_not]
  intro h48 h57
  apply this
  exact ⟨h48, h57⟩

/-- A decimal literal does not start with white space. -/
theorem scanDecimal_whiteSpace (c : Char) (cs : List Char) (h : isWhiteSpace c = true) :
    scanDecimal (c :: cs) = none := by
  have h1 : c ≠ '+' := by rintro rfl; revert h; decide
  have h2 : c ≠ '-' := by rintro rfl; revert h; decide
  have h3 : c ≠ '.' := by rintro rfl; revert h; decide
  have h4 : c ≠ 'I' := by rintro rfl; revert h; decide
  have hd := isDigit_of_isWhiteSpace c h
  have hu : scanUnsigned (c :: cs) = none := by
    simp [scanUnsigned, List.isPrefixOf, List.takeWhile, List.dropWhile, hd, h3, h4,
      Ne.symm h4]
  unfold scanDecimal
  split
  · rename_i heq
    simp only [List.cons.injEq] at heq
    exact absurd heq.1 h1
  · rename_i heq
    simp only [List.cons.injEq] at heq
    exact absurd heq.1 h2
  · exact hu

/-- After a radix literal's leading `0` the decimal scan stops, at its letter. -/
theorem scanDecimal_stops_of_scanRadix (cs : List Char) (h : (scanRadix cs).isSome = true) :
    ∃ p r, scanDecimal cs = some (.finite 0, p :: r) := by
  unfold scanRadix at h
  split at h
  · rename_i p r
    by_cases hp : p = 'x' ∨ p = 'X' ∨ p = 'o' ∨ p = 'O' ∨ p = 'b' ∨ p = 'B'
    · refine ⟨p, r, ?_⟩
      have : scanDecimal ('0' :: p :: r) = scanUnsigned ('0' :: p :: r) := by
        simp [scanDecimal]
      rw [this, scanUnsigned_radix_literal p r hp]
    · exfalso
      push_neg at hp
      obtain ⟨h1, h2, h3, h4, h5, h6⟩ := hp
      simp [h1, h2, h3, h4, h5, h6, radixDigit_zero] at h
  · simp at h

/-- A string that is wholly a decimal literal with a finite value is truthy,
passes `isNaN`, and `parseFloat` reads its value. -/
theorem decimal_literal_reads (s : String) (q : ℚ)
    (h : scanDecimal s.data = some (.finite q, [])) :
    (Value.string s).toBoolean = true ∧ isNaN (.string s) = false ∧
      parseFloat (.string s) = .finite q := by
  have hne : s.data ≠ [] := by
    intro e
    rw [e] at h
    simp [scanDecimal, scanUnsigned, List.isPrefixOf] at h
  have htrim : trimStart s.data = s.data := by
    cases hd : s.data with
    | nil => exact absurd hd hne
    | cons c cs =>
      have hc : isWhiteSpace c = false := by
        by_contra hw
        have hw2 : isWhiteSpace c = true := by simpa using hw
        rw [hd, scanDecimal_whiteSpace c cs hw2] at h
        exact Option.noConfusion h
      simp [trimStart, List.dropWhile, hc]
  have hradix : scanRadix s.data = none := by
    cases hr : scanRadix s.data with
    | none => rfl
    | some nr =>
      obtain ⟨p, r, hpr⟩ := scanDecimal_stops_of_scanRadix s.data (by rw [hr]; rfl)
      rw [hpr] at h
      simp at h
  refine ⟨?_, ?_, ?_⟩
  · simp only [Value.toBoolean, decide_eq_true_eq]
    intro e
    exact hne (by rw [e])
  · simp [isNaN, toNumber, stringToNumber, htrim, hne, hradix, h]
  · simp [parseFloat, htrim, h]

theorem dropWhile_whiteSpace_append (pre m : List Char)
    (hpre : ∀ c ∈ pre, isWhiteSpace c = true)
    (hm : ∀ c, m.head? = some c → isWhiteSpace c = false) :
    (pre ++ m).dropWhile isWhiteSpace = m := by
  induction pre with
  | nil =>
    cases m with
    | nil => rfl
    | cons c r => simp [List.dropWhile, hm c rfl]
  | cons a pre ih =>
    have ha : isWhiteSpace a = true := hpre a (List.mem_cons_self _ _)
    simp only [List.cons_append, List.dropWhile, ha]
    exact ih (fun c hc => hpre c (List.mem_cons_of_mem _ hc))

theorem dropWhile_whiteSpace_all (l : List Char) (h : ∀ c ∈ l, isWhiteSpace c = true) :
    l.dropWhile isWhiteSpace = [] := by
  have := dropWhile_whiteSpace_append l [] h (by simp)
  simpa using this

/-- The specification's "trimmed" singles out the result of `trim`. -/
theorem trim_eq_of_isTrimmed (s t : String) (h : IsTrimmed s t) : trim s = t := by
  obtain ⟨pre, post, hs, hpre, hpost, hhead, hlast⟩ := h
  have hgoal : trimEnd (trimStart s.data) = t.data := by
    unfold trimStart trimEnd
    rw [hs, List.append_assoc]
    cases ht : t.data with
    | nil =>
      rw [List.nil_append, dropWhile_whiteSpace_all (pre ++ post)]
      · rfl
      · intro c hc
        rcases List.mem_append.mp hc with h1 | h1
        · exact hpre c h1
        · exact hpost c h1
    | cons a r =>
      rw [← ht, dropWhile_whiteSpace_append pre (t.data ++ post) hpre]
      · rw [List.reverse_append, dropWhile_whiteSpace_append post.reverse t.data.reverse]
        · exact List.reverse_reverse _
        · intro c hc
          exact hpost c (List.mem_reverse.mp hc)
        · intro c hc
          rw [List.head?_reverse] at hc
          exact hlast c hc
      · intro c hc
        rw [ht] at hc
        apply hhead c
        rw [ht]
        simpa using hc
  show String.mk (trimEnd (trimStart s.data)) = t
  rw [hgoal]

/-- The result of `trim` is the string trimmed, in the specification's sense. -/
theorem isTrimmed_trim (s : String) : IsTrimmed s (trim s) := by
  refine ⟨s.data.takeWhile isWhiteSpace,
    ((s.data.dropWhile isWhiteSpace).reverse.takeWhile isWhiteSpace).reverse, ?_, ?_, ?_, ?_, ?_⟩
  · show s.data = _ ++ trimEnd (trimStart s.data) ++ _
    unfold trimEnd trimStart
    rw [List.append_assoc, ← List.reverse_append, List.takeWhile_append_dropWhile,
      List.reverse_reverse, List.takeWhile_append_dropWhile]
  · intro c hc
    exact List.mem_takeWhile_imp hc
  · intro c hc
    exact List.mem_takeWhile_imp (List.mem_reverse.mp hc)
  · intro c hc
    have hc' : (trimEnd (trimStart s.data)).head? = some c := hc
    -- the trimmed text is a prefix of what `trimStart` leaves
    have hpre : trimEnd (trimStart s.data) <+: trimStart s.data :=
      List.rdropWhile_prefix isWhiteSpace (trimStart s.data)
    obtain ⟨u, hu⟩ := hpre
    have hhead : (trimStart s.data).head? = some c := by
      rw [← hu]
      cases hx : trimEnd (trimStart s.data) with
      | nil => rw [hx] at hc'; simp at hc'
      | cons a r => rw [hx] at hc'; simpa using hc'
    unfold trimStart at hhead
    cases hd : s.data.dropWhile isWhiteSpace with
    | nil => rw [hd] at hhead; simp at hhead
    | cons a r =>
      rw [hd] at hhead
      simp only [List.head?_cons, Option.some.injEq] at hhead
      subst hhead
      have := List.head_dropWhile_not isWhiteSpace s.data (by rw [hd]; simp)
      simpa [hd] using this
  · intro c hc
    have hc' : (trimEnd (trimStart s.data)).getLast? = some c := hc
    unfold trimEnd at hc'
    rw [List.getLast?_reverse] at hc'
    cases hd : (trimStart s.data).reverse.dropWhile isWhiteSpace with
    | nil => rw [hd] at hc'; simp at hc'
    | cons a r =>
      rw [hd] at hc'
      simp only [List.head?_cons, Option.some.injEq] at hc'
      subst hc'
      have := List.head_dropWhile_not isWhiteSpace (trimStart s.data).reverse (by rw [hd]; simp)
      simpa [hd] using this

theorem trim_eq_empty_iff (s : String) : trim s = "" ↔ IsBlank s := by
  constructor
  · intro h
    obtain ⟨pre, post, hs, hpre, hpost, _, _⟩ := isTrimmed_trim s
    rw [h] at hs
    intro c hc
    rw [hs] at hc
    simp only [List.append_nil, List.mem_append] at hc
    change c ∈ pre ∨ c ∈ post at hc
    rcases hc with h1 | h1
    · exact hpre c h1
    · exact hpost c h1
  · intro h
    apply trim_eq_of_isTrimmed
    exact ⟨s.data, [], by simp, h, by simp, by simp, by simp⟩

theorem digitChar_isDigit (d : Nat) (h : d < 10) : (Nat.digitChar d).isDigit = true := by
  interval_cases d <;> rfl

theorem toDigitsCore_isDigit (fuel : Nat) : ∀ (n : Nat) (ds : List Char),
    (∀ c ∈ ds, c.isDigit = true) →
      ∀ c ∈ Nat.toDigitsCore 10 fuel n ds, c.isDigit = true := by
  induction fuel with
  | zero => intro n ds h c hc; exact h c (by simpa [Nat.toDigitsCore] using hc)
  | succ f ih =>
    intro n ds h c hc
    have hd : ∀ x ∈ Nat.digitChar (n % 10) :: ds, x.isDigit = true := by
      intro x hx
      rcases List.mem_cons.mp hx with rfl | hx
      · exact digitChar_isDigit _ (Nat.mod_lt _ (by decide))
      · exact h x hx
    simp only [Nat.toDigitsCore] at hc
    split at hc
    · exact hd c hc
    · exact ih _ _ hd c hc

theorem toDigitsCore_ne_nil (fuel n : Nat) : Nat.toDigitsCore 10 (fuel + 1) n [] ≠ [] := by
  simp only [Nat.toDigitsCore]
  split
  · simp
  · rw [DecimalText.toDigitsCore_append]
    simp

/-- The text of a natural number is its digits: the decimal scan reads all of
it, as that number. -/
theorem scanUnsigned_toString (n : Nat) :
    scanUnsigned (toString n).data = some (numberValue n, []) := by
  have hdata : (toString n).data = Nat.toDigitsCore 10 (n + 1) n [] := rfl
  have hall : ∀ c ∈ (toString n).data, c.isDigit = true := by
    rw [hdata]
    exact toDigitsCore_isDigit _ _ _ (by simp)
  have hne : (toString n).data ≠ [] := by
    rw [hdata]
    exact toDigitsCore_ne_nil n n
  have hval : DecimalText.value 0 (toString n).data = n :=
    DecimalText.value_toDigitsCore (n + 1) n (by omega)
  have htake : (toString n).data.takeWhile Char.isDigit = (toString n).data :=
    List.takeWhile_eq_self_iff.mpr hall
  have hdrop : (toString n).data.dropWhile Char.isDigit = [] :=
    List.dropWhile_eq_nil_iff.mpr hall
  have hinf : "Infinity".data.isPrefixOf (toString n).data = false := by
    cases hd : (toString n).data with
    | nil => exact absurd hd hne
    | cons a r =>
      have ha : a.isDigit = true := hall a (by rw [hd]; simp)
      have : a ≠ 'I' := by rintro rfl; revert ha; decide
      simp [List.isPrefixOf, Ne.symm this]
  unfold scanUnsigned
  simp only [hinf, htake, hdrop, hne, hval, scanExponent]
  simp

theorem scanDecimal_toString (n : Nat) :
    scanDecimal (toString n).data = some (numberValue n, []) := by
  have hdata : (toString n).data = Nat.toDigitsCore 10 (n + 1) n [] := rfl
  have hall : ∀ c ∈ (toString n).data, c.isDigit = true := by
    rw [hdata]
    exact toDigitsCore_isDigit _ _ _ (by simp)
  rw [← scanUnsigned_toString n]
  unfold scanDecimal
  split
  · rename_i r heq
    have hplus : '+'.isDigit = true := hall '+' (by rw [heq]; simp)
    exact absurd hplus (by decide)
  · rename_i r heq
    have hminus : '-'.isDigit = true := hall '-' (by rw [heq]; simp)
    exact absurd hminus (by decide)
  · rfl

theorem trimStart_toString (n : Nat) : trimStart (toString n).data = (toString n).data := by
  have hdata : (toString n).data = Nat.toDigitsCore 10 (n + 1) n [] := rfl
  have hall : ∀ c ∈ (toString n).data, c.isDigit = true := by
    rw [hdata]
    exact toDigitsCore_isDigit _ _ _ (by simp)
  unfold trimStart
  cases hd : (toString n).data with
  | nil => rfl
  | cons a r =>
    have ha : a.isDigit = true := hall a (by rw [hd]; simp)
    have hw : isWhiteSpace a = false := by
      by_contra hw
      have hw2 : isWhiteSpace a = true := by simpa using hw
      rw [isDigit_of_isWhiteSpace a hw2] at ha
      exact Bool.noConfusion ha
    simp [List.dropWhile, hw]

/-- `parseFloat` reads the text of a natural number as that number. -/
theorem parseFloat_toString (n : Nat) :
    parseFloat (.string (toString n)) = numberValue n := by
  simp only [parseFloat, trimStart_toString, scanDecimal_toString]

/-- `parseFloat` reads a minus sign and the text of a natural number as the
negative of that number. -/
theorem parseFloat_minus_toString (n : Nat) :
    parseFloat (.string ("-" ++ toString n)) = (numberValue n).neg := by
  have hdata : ("-" ++ toString n).data = '-' :: (toString n).data := rfl
  have htrim : trimStart ('-' :: (toString n).data) = '-' :: (toString n).data := by
    simp [trimStart, List.dropWhile, show isWhiteSpace '-' = false by decide]
  simp only [parseFloat, hdata, htrim, scanDecimal, scanUnsigned_toString, Option.map_some']

theorem numberValue_natCast (n : Nat) (h : (n : ℚ) < (2 : ℚ) ^ 1024 - (2 : ℚ) ^ 970) :
    numberValue n = .finite n := by
  unfold numberValue
  have habs : |(n : ℚ)| = n := abs_of_nonneg (Nat.cast_nonneg n)
  rw [habs, if_neg (not_le.mpr h)]
  by_cases h0 : n = 0
  · subst h0
    norm_num
  · have h1 : (1 : ℚ) ≤ n := by exact_mod_cast Nat.one_le_iff_ne_zero.mpr h0
    have h2 : (1 : ℚ) / (2 : ℚ) ^ 1075 < 1 := by
      rw [div_lt_one (by positivity)]
      exact one_lt_pow₀ (by norm_num) (by norm_num)
    rw [if_neg (not_le.mpr (lt_of_lt_of_le h2 h1))]

end JS

namespace Api

theorem deleteOne_absent (collection : List Doc) (id : ObjectId)
    (h : ∀ d ∈ collection, d._id ≠ id) : deleteOne collection id = (0, collection) := by
  induction collection with
  | nil => rfl
  | cons d rest ih =>
    have hd : d._id ≠ id := h d (by simp)
    have := ih (fun x hx => h x (by simp [hx]))
    simp [deleteOne, hd, this]

theorem deleteOne_present (collection : List Doc) (id : ObjectId)
    (h : ∃ d ∈ collection, d._id = id) (hnd : (collection.map (fun d => d._id)).Nodup) :
    (deleteOne collection id).1 = 1 ∧
      (∀ d ∈ (deleteOne collection id).2, d._id ≠ id) ∧
      (∀ d ∈ collection, d._id ≠ id → d ∈ (deleteOne collection id).2) := by
  induction collection with
  | nil => simp at h
  | cons d rest ih =>
    simp only [List.map_cons, List.nodup_cons] at hnd
    by_cases hd : d._id = id
    · simp only [deleteOne, hd, if_true]
      refine ⟨trivial, ?_, ?_⟩
      · intro x hx hxid
        exact hnd.1 (List.mem_map.mpr ⟨x, hx, by rw [hxid, hd]⟩)
      · intro x hx hxid
        rcases List.mem_cons.mp hx with rfl | hx
        · exact absurd hd hxid
        · exact hx
    · have hex : ∃ x ∈ rest, x._id = id := by
        obtain ⟨x, hx, hxid⟩ := h
        rcases List.mem_cons.mp hx with rfl | hx
        · exact absurd hxid hd
        · exact ⟨x, hx, hxid⟩
      obtain ⟨h1, h2, h3⟩ := ih hex hnd.2
      simp only [deleteOne, hd, if_false]
      refine ⟨h1, ?_, ?_⟩
      · intro x hx
        rcases List.mem_cons.mp hx with rfl | hx
        · exact hd
        · exact h2 x hx
      · intro x hx hxid
        rcases List.mem_cons.mp hx with rfl | hx
        · exact List.mem_cons_self _ _
        · exact List.mem_cons_of_mem _ (h3 x hx hxid)

theorem findOneAndUpdate_absent (collection : List Doc) (id : ObjectId) (set : Doc → Doc)
    (h : ∀ d ∈ collection, d._id ≠ id) :
    findOneAndUpdate collection id set = (none, collection) := by
  induction collection with
  | nil => rfl
  | cons d rest ih =>
    have hd : d._id ≠ id := h d (by simp)
    have := ih (fun x hx => h x (by simp [hx]))
    simp [findOneAndUpdate, hd, this]

theorem missingRequired_of_absent (body : Body)
    (h : body.description = .undefined ∨ body.description = .null ∨
      body.amount = .undefined ∨ body.amount = .null ∨
      body.date = .undefined ∨ body.date = .null) : missingRequired body = true := by
  unfold missingRequired
  rcases h with h | h | h | h | h | h <;> simp [h, JS.Value.toBoolean]

/-- C4: a POST or PUT whose body lacks `description`, `amount` or `date` (the
field is absent or `null`) is answered with status 400 and an `{error}` body,
and the collection is left as it was. -/
theorem missing_field_rejected (env : Env) (method : Method) (body : Body)
    (collection : List Doc) (hm : method = .POST ∨ method = .PUT)
    (h : body.description = .undefined ∨ body.description = .null ∨
      body.amount = .undefined ∨ body.amount = .null ∨
      body.date = .undefined ∨ body.date = .null) :
    (handler env method body collection).1.status = 400 ∧
      (∃ msg, (handler env method body collection).1.body = .error msg) ∧
      (handler env method body collection).2 = collection := by
  have hmiss := missingRequired_of_absent body h
  rcases hm with rfl | rfl
  · simp [handler, hmiss]
  · unfold handler
    by_cases h1 : body.id.toBoolean = true
    · by_cases h2 : env.isValid body.id = true
      · simp [h1, h2, hmiss]
      · simp [h1, h2]
    · simp [h1]

theorem missing_field_rejected_witness :
    (handler sampleEnv .POST { description := .string "Coffee", date := .number (.finite 0) }
        []).1.status = 400 ∧
      (∃ msg, (handler sampleEnv .POST
        { description := .string "Coffee", date := .number (.finite 0) } []).1.body
          = .error msg) ∧
      (handler sampleEnv .POST { description := .string "Coffee", date := .number (.finite 0) }
        []).2 = [] :=
  missing_field_rejected sampleEnv .POST
    { description := .string "Coffee", date := .number (.finite 0) } []
    (Or.inl rfl) (Or.inr (Or.inr (Or.inl rfl)))

/-- C5 (the code at the failing input): a POST whose `amount` is the empty
string passes `isNaN` (the empty string converts to `0`), is answered with
status 201, and the record it stores has the amount `parseFloat("")`, which is
`NaN`. -/
theorem empty_amount_stored_as_nan :
    (handler sampleEnv .POST
        { description := .string "Coffee", amount := .string "",
          date := .number (.finite 1709251200000) } []).1.status = 201 ∧
      (handler sampleEnv .POST
        { description := .string "Coffee", amount := .string "",
          date := .number (.finite 1709251200000) } []).2.map (fun d => d.amount)
        = [.nan] := by
  decide

/-- C6: a PUT or DELETE whose `id` is malformed (empty, or refused by
`ObjectId.isValid`) is answered with status 400; one whose `id` is well-formed
but is the `_id` of no stored document (and, for PUT, whose other fields pass
validation and normalise) is answered with status 404; in both cases the
collection is left as it was. -/
theorem bad_or_absent_id (env : Env) (method : Method) (body : Body)
    (collection : List Doc) (hm : method = .PUT ∨ method = .DELETE) :
    ((body.id.toBoolean = false ∨ env.isValid body.id = false) →
        (handler env method body collection).1.status = 400 ∧
          (handler env method body collection).2 = collection) ∧
      ((body.id.toBoolean = true ∧ env.isValid body.id = true ∧
          (∀ d ∈ collection, d._id ≠ env.objectId body.id) ∧
          (method = .PUT → missingRequired body = false ∧ JS.isNaN body.amount = false ∧
            (normalise env body).isSome = true)) →
        (handler env method body collection).1.status = 404 ∧
          (handler env method body collection).2 = collection) := by
  constructor
  · intro hbad
    rcases hm with rfl | rfl
    · unfold handler
      by_cases h1 : body.id.toBoolean = true
      · have h2 : env.isValid body.id = false := by
          rcases hbad with h | h
          · rw [h1] at h; cases h
          · exact h
        simp [h1, h2]
      · simp [h1]
    · unfold handler
      by_cases h1 : body.id.toBoolean = true
      · have h2 : env.isValid body.id = false := by
          rcases hbad with h | h
          · rw [h1] at h; cases h
          · exact h
        simp [h1, h2]
      · simp [h1]
  · rintro ⟨h1, h2, habs, hput⟩
    rcases hm with rfl | rfl
    · obtain ⟨h3, h4, h5⟩ := hput rfl
      obtain ⟨f, hf⟩ := Option.isSome_iff_exists.mp h5
      simp [handler, h1, h2, h3, h4, hf, findOneAndUpdate_absent _ _ _ habs]
    · simp [handler, h1, h2, deleteOne_absent _ _ habs]

theorem bad_or_absent_id_witness :
    (handler sampleEnv .DELETE { id := .string "0000000000000000000000a1" } []).1.status
        = 404 ∧
      (handler sampleEnv .DELETE { id := .string "0000000000000000000000a1" } []).2 = [] :=
  (bad_or_absent_id sampleEnv .DELETE { id := .string "0000000000000000000000a1" } []
    (Or.inr rfl)).2
    ⟨by decide, by decide, by simp, by intro h; cases h⟩

theorem findOneAndUpdate_found (set : Doc → Doc) (id : ObjectId) :
    ∀ (collection : List Doc) (value : Doc) (collection1 : List Doc),
      findOneAndUpdate collection id set = (some value, collection1) →
        ∃ pre old post, collection = pre ++ old :: post ∧ (∀ d ∈ pre, d._id ≠ id) ∧
          old._id = id ∧ value = set old ∧ collection1 = pre ++ set old :: post := by
  intro collection
  induction collection with
  | nil => intro value c1 h; simp [findOneAndUpdate] at h
  | cons d rest ih =>
    intro value c1 h
    by_cases hd : d._id = id
    · simp only [findOneAndUpdate, hd, if_true, Prod.mk.injEq, Option.some.injEq] at h
      exact ⟨[], d, rest, rfl, by simp, hd, h.1.symm, h.2.symm⟩
    · simp only [findOneAndUpdate, hd, if_false, Prod.mk.injEq] at h
      obtain ⟨pre, old, post, h1, h2, h3, h4, h5⟩ :=
        ih value (findOneAndUpdate rest id set).2 (Prod.ext h.1 rfl)
      refine ⟨d :: pre, old, post, by rw [h1]; rfl, ?_, h3, h4, ?_⟩
      · intro x hx
        rcases List.mem_cons.mp hx with rfl | hx
        · exact hd
        · exact h2 x hx
      · rw [← h.2, h5]; rfl

theorem findOne_after_insertOne (collection : List Doc) (doc : Doc)
    (collection1 : List Doc) (h : insertOne collection doc = some collection1) :
    collection1 = collection ++ [doc] ∧ findOne collection1 doc._id = some doc := by
  unfold insertOne at h
  by_cases hf : (findOne collection doc._id).isSome = true
  · simp [hf] at h
  · simp only [hf] at h
    simp only [Bool.false_eq_true, if_false, Option.some.injEq] at h
    subst h
    refine ⟨rfl, ?_⟩
    have hnone : findOne collection doc._id = none := by
      simpa using hf
    unfold findOne at hnone ⊢
    rw [List.find?_append, hnone]
    simp

theorem post_accepted (env : Env) (body : Body) (collection : List Doc)
    (h : (handler env .POST body collection).1.status = 201) :
    ∃ f, normalise env body = some f ∧ JS.isNaN body.amount = false ∧
      handler env .POST body collection =
        ({ status := 201, body := .doc (created env f) }, collection ++ [created env f]) := by
  unfold handler at h ⊢
  simp only at h ⊢
  by_cases h1 : missingRequired body = true
  · simp [h1] at h
  · by_cases h2 : JS.isNaN body.amount = true
    · simp [h1, h2] at h
    · cases hf : normalise env body with
      | none => simp [h1, h2, hf] at h
      | some f =>
        refine ⟨f, rfl, by simpa using h2, ?_⟩
        simp only [h1, h2, hf] at h ⊢
        simp only [Bool.false_eq_true, if_false] at h ⊢
        cases hi : insertOne collection (created env f) with
        | none =>
          simp only [created] at hi
          rw [hi] at h
          simp at h
        | some c1 =>
          obtain ⟨hc1, hfind⟩ := findOne_after_insertOne _ _ _ hi
          simp only [created] at hi hfind hc1 ⊢
          rw [hi]
          simp only
          rw [hfind, hc1]

theorem post_valid (env : Env) (body : Body) (collection : List Doc) (f : Fields)
    (h1 : missingRequired body = false) (h2 : JS.isNaN body.amount = false)
    (hf : normalise env body = some f)
    (hfresh : ∀ d ∈ collection, d._id ≠ env.insertedId) :
    handler env .POST body collection =
      ({ status := 201, body := .doc (created env f) }, collection ++ [created env f]) := by
  have hnone : findOne collection env.insertedId = none := by
    unfold findOne
    rw [List.find?_eq_none]
    intro d hd
    simpa using hfresh d hd
  have hi : insertOne collection (created env f) = some (collection ++ [created env f]) := by
    simp [insertOne, created, hnone]
  obtain ⟨_, hfind⟩ := findOne_after_insertOne _ _ _ hi
  simp only [created] at hi hfind
  simp only [handler, h1, h2, hf, Bool.false_eq_true, if_false, hi, hfind, created]

theorem put_accepted (env : Env) (body : Body) (collection : List Doc)
    (h : (handler env .PUT body collection).1.status = 200) :
    ∃ f pre old post, normalise env body = some f ∧ JS.isNaN body.amount = false ∧
      collection = pre ++ old :: post ∧ (∀ d ∈ pre, d._id ≠ env.objectId body.id) ∧
      old._id = env.objectId body.id ∧
      handler env .PUT body collection =
        ({ status := 200, body := .doc (applySet f env.now old) },
          pre ++ applySet f env.now old :: post) := by
  unfold handler at h ⊢
  simp only at h ⊢
  by_cases h0 : body.id.toBoolean = true
  swap
  · simp [h0] at h
  by_cases h00 : env.isValid body.id = true
  swap
  · simp [h0, h00] at h
  by_cases h1 : missingRequired body = true
  · simp [h0, h00, h1] at h
  by_cases h2 : JS.isNaN body.amount = true
  · simp [h0, h00, h1, h2] at h
  cases hf : normalise env body with
  | none => simp [h0, h00, h1, h2, hf] at h
  | some f =>
    simp only [h0, h00, h1, h2, hf, Bool.not_true, Bool.false_eq_true, if_false] at h ⊢
    cases hu : findOneAndUpdate collection (env.objectId body.id) (applySet f env.now) with
    | mk r c1 =>
      cases r with
      | none => rw [hu] at h; simp at h
      | some value =>
        obtain ⟨pre, old, post, e1, e2, e3, e4, e5⟩ := findOneAndUpdate_found _ _ _ _ _ hu
        refine ⟨f, pre, old, post, rfl, by simp [h2], e1, e2, e3, ?_⟩
        simp only [e4, e5]

theorem typeOrSign_supplied (type amount : JS.Value) (h : type.toBoolean = true) :
    typeOrSign type amount = type := by
  simp [typeOrSign, h]

theorem typeOrSign_derived (amount : JS.Value) (q : ℚ) (hacc : JS.isNaN amount = false)
    (hp : JS.parseFloat amount = .finite q) :
    (0 < q → typeOrSign .undefined amount = .string "income") ∧
      (q < 0 → typeOrSign .undefined amount = .string "expense") := by
  constructor
  · intro hq
    have := JS.toNumber_of_parseFloat amount q hacc hp (ne_of_gt hq)
    simp [typeOrSign, JS.Value.toBoolean, this, JS.Number.geZero, hq.le]
  · intro hq
    have := JS.toNumber_of_parseFloat amount q hacc hp (ne_of_lt hq)
    simp [typeOrSign, JS.Value.toBoolean, this, JS.Number.geZero, hq]

theorem normalise_fields (env : Env) (body : Body) (f : Fields)
    (h : normalise env body = some f) :
    (∃ s, body.description = .string s ∧ f.description = JS.trim s) ∧
      f.amount = JS.parseFloat body.amount ∧
      categoryOrGeneral body.category = some f.category ∧
      f.date = env.newDate body.date ∧
      f.type = typeOrSign body.type body.amount := by
  unfold normalise at h
  cases hd : callTrim body.description with
  | none => simp [hd] at h
  | some d =>
    cases hc : categoryOrGeneral body.category with
    | none => simp [hd, hc] at h
    | some c =>
      simp only [hd, hc, Option.some.injEq] at h
      subst h
      refine ⟨?_, rfl, rfl, rfl, rfl⟩
      cases hb : body.description with
      | string s =>
        rw [hb] at hd
        simp only [callTrim, Option.some.injEq] at hd
        exact ⟨s, rfl, hd.symm⟩
      | undefined => rw [hb] at hd; simp [callTrim] at hd
      | null => rw [hb] at hd; simp [callTrim] at hd
      | boolean b => rw [hb] at hd; simp [callTrim] at hd
      | number n => rw [hb] at hd; simp [callTrim] at hd

/-- C7: for an accepted POST (201) or PUT (200), the record returned and stored
has the body's `type` when the body supplies one (a truthy value such as
`"income"` or `"expense"`), whatever the amount's sign; when the body has no
`type`, the record's type is `"income"` if its amount is positive and
`"expense"` if its amount is negative. -/
theorem stored_type_rule (env : Env) (method : Method) (body : Body)
    (collection : List Doc) (hm : method = .POST ∨ method = .PUT)
    (hacc : (handler env method body collection).1.status = 201 ∨
      (handler env method body collection).1.status = 200) :
    ∃ d, (handler env method body collection).1.body = .doc d ∧
      d ∈ (handler env method body collection).2 ∧
      (body.type.toBoolean = true → d.type = body.type) ∧
      (body.type = .undefined → ∀ q, d.amount = .finite q →
        (0 < q → d.type = .string "income") ∧ (q < 0 → d.type = .string "expense")) := by
  rcases hm with rfl | rfl
  · have h201 : (handler env .POST body collection).1.status = 201 := by
      rcases hacc with h | h
      · exact h
      · exfalso
        revert h
        unfold handler
        simp only
        split_ifs <;> try simp
        split <;> try simp
        split <;> try simp
        split <;> simp
    obtain ⟨f, hf, hnan, heq⟩ := post_accepted env body collection h201
    obtain ⟨_, hamt, _, _, htype⟩ := normalise_fields env body f hf
    rw [heq]
    refine ⟨created env f, rfl, by simp, ?_, ?_⟩
    · intro ht
      simp only [created]
      rw [htype, typeOrSign_supplied _ _ ht]
    · intro ht q hq
      simp only [created] at hq ⊢
      rw [htype, ht]
      exact typeOrSign_derived body.amount q hnan (by rw [← hamt, hq])
  · have h200 : (handler env .PUT body collection).1.status = 200 := by
      rcases hacc with h | h
      · exfalso
        revert h
        unfold handler
        simp only
        split_ifs <;> try simp
        split <;> try simp
        split <;> simp
      · exact h
    obtain ⟨f, pre, old, post, hf, hnan, _, _, _, heq⟩ := put_accepted env body collection h200
    obtain ⟨_, hamt, _, _, htype⟩ := normalise_fields env body f hf
    rw [heq]
    refine ⟨applySet f env.now old, rfl, by simp, ?_, ?_⟩
    · intro ht
      simp only [applySet]
      rw [htype, typeOrSign_supplied _ _ ht]
    · intro ht q hq
      simp only [applySet] at hq ⊢
      rw [htype, ht]
      exact typeOrSign_derived body.amount q hnan (by rw [← hamt, hq])

theorem stored_type_rule_witness :
    ∃ d, (handler sampleEnv .POST
        { description := .string "Coffee", amount := .number (.finite (-9 / 2)),
          date := .number (.finite 1709251200000) } []).1.body = .doc d ∧
      d ∈ (handler sampleEnv .POST
        { description := .string "Coffee", amount := .number (.finite (-9 / 2)),
          date := .number (.finite 1709251200000) } []).2 ∧
      (JS.Value.undefined.toBoolean = true → d.type = .undefined) ∧
      (JS.Value.undefined = .undefined → ∀ q, d.amount = .finite q →
        (0 < q → d.type = .string "income") ∧ (q < 0 → d.type = .string "expense")) :=
  stored_type_rule sampleEnv .POST
    { description := .string "Coffee", amount := .number (.finite (-9 / 2)),
      date := .number (.finite 1709251200000) } [] (Or.inl rfl) (Or.inl (by decide))

/-- C8: when `id` is the well-formed identifier of a stored document (and `_id`
is unique in the collection), the first DELETE is answered with 200 and a second
DELETE with the same `id` with 404; a GET after the first DELETE lists no
document with that `_id` and still lists every other stored document. -/
theorem delete_twice (env : Env) (id : JS.Value) (collection : List Doc)
    (hid : id.toBoolean = true) (hvalid : env.isValid id = true)
    (hstored : ∃ d ∈ collection, d._id = env.objectId id)
    (hunique : (collection.map (fun d => d._id)).Nodup) :
    (handler env .DELETE { id := id } collection).1.status = 200 ∧
      (handler env .DELETE { id := id }
        (handler env .DELETE { id := id } collection).2).1.status = 404 ∧
      ∃ listed,
        (handler env .GET {} (handler env .DELETE { id := id } collection).2).1
          = { status := 200, body := .docs listed } ∧
        (∀ d ∈ listed, d._id ≠ env.objectId id) ∧
        (∀ d ∈ collection, d._id ≠ env.objectId id → d ∈ listed) := by
  obtain ⟨h1, h2, h3⟩ := deleteOne_present collection (env.objectId id) hstored hunique
  have hfirst : handler env .DELETE { id := id } collection =
      ({ status := 200, body := .message "Transaction deleted successfully" },
        (deleteOne collection (env.objectId id)).2) := by
    simp only [handler, hid, hvalid, Bool.not_true, Bool.false_eq_true, if_false]
    cases hdel : deleteOne collection (env.objectId id) with
    | mk n c1 =>
      rw [hdel] at h1
      simp only at h1
      subst h1
      rfl
  rw [hfirst]
  refine ⟨rfl, ?_, ?_⟩
  · simp [handler, hid, hvalid, deleteOne_absent _ _ h2]
  · refine ⟨findSorted (deleteOne collection (env.objectId id)).2, rfl, ?_, ?_⟩
    · intro d hd
      exact h2 d ((List.mem_insertionSort _).mp hd)
    · intro d hd hne
      exact (List.mem_insertionSort _).mpr (h3 d hd hne)

theorem delete_twice_witness :
    (handler sampleEnv .DELETE { id := .string "000000000000000000000001" }
        (handler sampleEnv .POST
          { description := .string "Coffee", amount := .number (.finite (-9 / 2)),
            date := .number (.finite 1709251200000) } []).2).1.status = 200 ∧
      (handler sampleEnv .DELETE { id := .string "000000000000000000000001" }
        (handler sampleEnv .DELETE { id := .string "000000000000000000000001" }
          (handler sampleEnv .POST
            { description := .string "Coffee", amount := .number (.finite (-9 / 2)),
              date := .number (.finite 1709251200000) } []).2).2).1.status = 404 ∧
      ∃ listed,
        (handler sampleEnv .GET {}
          (handler sampleEnv .DELETE { id := .string "000000000000000000000001" }
            (handler sampleEnv .POST
              { description := .string "Coffee", amount := .number (.finite (-9 / 2)),
                date := .number (.finite 1709251200000) } []).2).2).1
          = { status := 200, body := .docs listed } ∧
        (∀ d ∈ listed, d._id ≠ sampleEnv.objectId (.string "000000000000000000000001")) ∧
        (∀ d ∈ (handler sampleEnv .POST
            { description := .string "Coffee", amount := .number (.finite (-9 / 2)),
              date := .number (.finite 1709251200000) } []).2,
          d._id ≠ sampleEnv.objectId (.string "000000000000000000000001") → d ∈ listed) :=
  delete_twice sampleEnv (.string "000000000000000000000001")
    (handler sampleEnv .POST
      { description := .string "Coffee", amount := .number (.finite (-9 / 2)),
        date := .number (.finite 1709251200000) } []).2
    (by decide) (by decide) (by decide) (by decide)

theorem parseFloat_reads (v : JS.Value) :
    (∀ n : JS.Number, v = .number n → JS.parseFloat v = n) ∧
      (∀ n : Nat, (n : ℚ) < (2 : ℚ) ^ 1024 - (2 : ℚ) ^ 970 →
        (v = .string (toString n) → JS.parseFloat v = .finite n) ∧
        (v = .string ("-" ++ toString n) → JS.parseFloat v = .finite (-(n : ℚ)))) := by
  refine ⟨?_, ?_⟩
  · rintro n rfl
    rfl
  · intro n hn
    constructor
    · rintro rfl
      rw [JS.parseFloat_toString, JS.numberValue_natCast n hn]
    · rintro rfl
      rw [JS.parseFloat_minus_toString, JS.numberValue_natCast n hn]
      rfl

theorem categoryOrGeneral_spec (v : JS.Value) (category : String)
    (h : categoryOrGeneral v = some category) :
    ((v = .undefined ∨ v = .null) → category = "General") ∧
      (∀ c, v = .string c →
        (JS.IsBlank c → category = "General") ∧
        (¬ JS.IsBlank c → JS.IsTrimmed c category)) := by
  constructor
  · rintro (rfl | rfl) <;>
      · simp only [categoryOrGeneral, Option.some.injEq] at h
        exact h.symm
  · rintro c rfl
    simp only [categoryOrGeneral, Option.some.injEq] at h
    constructor
    · intro hb
      rw [← h, if_pos ((JS.trim_eq_empty_iff c).mpr hb)]
    · intro hb
      have hne : JS.trim c ≠ "" := fun e => hb ((JS.trim_eq_empty_iff c).mp e)
      rw [← h, if_neg hne]
      exact JS.isTrimmed_trim c

/-- C9: a PUT answered with 200 replaces the first (only) document whose `_id`
is the request's id by a document with the same `_id` and `createdAt` and with
`updatedAt` set to the time of the request; every other document of the
collection is left in place unchanged.  The five fields of the updated document
come from the request alone, whatever the old values were:
* `description` is the request's description trimmed (no white space left at
  either end);
* `amount` is `parseFloat(amount)`: a number is stored as it is, the text of a
  whole number (with or without a minus sign) as that number;
* `category` is `"General"` when the request has none or a blank one, and the
  request's category trimmed otherwise;
* `date` is `new Date(date)`;
* `type` is the request's type when it supplies one, and when it has none,
  `"income"` for a positive stored amount and `"expense"` for a negative one. -/
theorem update_replaces_fields (env : Env) (body : Body) (collection : List Doc)
    (h : (handler env .PUT body collection).1.status = 200) :
    ∃ pre old post updated s,
      collection = pre ++ old :: post ∧
      (∀ d ∈ pre, d._id ≠ env.objectId body.id) ∧
      old._id = env.objectId body.id ∧
      (handler env .PUT body collection).1.body = .doc updated ∧
      (handler env .PUT body collection).2 = pre ++ updated :: post ∧
      updated._id = old._id ∧
      updated.createdAt = old.createdAt ∧
      updated.updatedAt = some env.now ∧
      body.description = .string s ∧
      updated.description = JS.trim s ∧
      JS.IsTrimmed s updated.description ∧
      updated.amount = JS.parseFloat body.amount ∧
      (∀ n : JS.Number, body.amount = .number n → updated.amount = n) ∧
      (∀ n : Nat, (n : ℚ) < (2 : ℚ) ^ 1024 - (2 : ℚ) ^ 970 →
        (body.amount = .string (toString n) → updated.amount = .finite n) ∧
        (body.amount = .string ("-" ++ toString n) → updated.amount = .finite (-(n : ℚ)))) ∧
      categoryOrGeneral body.category = some updated.category ∧
      ((body.category = .undefined ∨ body.category = .null) →
        updated.category = "General") ∧
      (∀ c, body.category = .string c →
        (JS.IsBlank c → updated.category = "General") ∧
        (¬ JS.IsBlank c → JS.IsTrimmed c updated.category)) ∧
      updated.date = env.newDate body.date ∧
      updated.type = typeOrSign body.type body.amount ∧
      (body.type.toBoolean = true → updated.type = body.type) ∧
      (body.type = .undefined → ∀ q, updated.amount = .finite q →
        (0 < q → updated.type = .string "income") ∧
        (q < 0 → updated.type = .string "expense")) := by
  obtain ⟨f, pre, old, post, hf, hnan, h1, h2, h3, heq⟩ := put_accepted env body collection h
  obtain ⟨⟨s, hs, hdesc⟩, hamt, hcat, hdate, htype⟩ := normalise_fields env body f hf
  obtain ⟨hnum, hint⟩ := parseFloat_reads body.amount
  obtain ⟨hc1, hc2⟩ := categoryOrGeneral_spec body.category f.category hcat
  refine ⟨pre, old, post, applySet f env.now old, s, h1, h2, h3, by rw [heq], by rw [heq],
    rfl, rfl, rfl, hs, hdesc, ?_, hamt, ?_, ?_, hcat, hc1, hc2, hdate, htype, ?_, ?_⟩
  · show JS.IsTrimmed s f.description
    rw [hdesc]
    exact JS.isTrimmed_trim s
  · intro n hn
    show f.amount = n
    rw [hamt]
    exact hnum n hn
  · intro n hn
    refine ⟨fun e => ?_, fun e => ?_⟩
    · show f.amount = _
      rw [hamt]
      exact (hint n hn).1 e
    · show f.amount = _
      rw [hamt]
      exact (hint n hn).2 e
  · intro ht
    show f.type = body.type
    rw [htype, typeOrSign_supplied _ _ ht]
  · intro ht q hq
    have hq' : f.amount = .finite q := hq
    show (0 < q → f.type = _) ∧ (q < 0 → f.type = _)
    rw [htype, ht]
    exact typeOrSign_derived body.amount q hnan (by rw [← hamt, hq'])

theorem update_replaces_fields_witness :
    (∃ pre old post updated s,
      [sampleSalary, sampleCoffee] = pre ++ old :: post ∧
      (∀ d ∈ pre, d._id ≠ sampleEnv.objectId (.string "000000000000000000000001")) ∧
      old._id = sampleEnv.objectId (.string "000000000000000000000001") ∧
      (handler sampleEnv .PUT
        { id := .string "000000000000000000000001", description := .string "  Refund\t",
          amount := .string "100", date := .number (.finite 1709337600000) }
        [sampleSalary, sampleCoffee]).1.body = .doc updated ∧
      (handler sampleEnv .PUT
        { id := .string "000000000000000000000001", description := .string "  Refund\t",
          amount := .string "100", date := .number (.finite 1709337600000) }
        [sampleSalary, sampleCoffee]).2 = pre ++ updated :: post ∧
      updated._id = old._id ∧
      updated.createdAt = old.createdAt ∧
      updated.updatedAt = some sampleEnv.now ∧
      JS.Value.string "  Refund\t" = .string s ∧
      updated.description = JS.trim s ∧
      JS.IsTrimmed s updated.description ∧
      updated.amount = JS.parseFloat (.string "100") ∧
      (∀ n : JS.Number, JS.Value.string "100" = .number n → updated.amount = n) ∧
      (∀ n : Nat, (n : ℚ) < (2 : ℚ) ^ 1024 - (2 : ℚ) ^ 970 →
        (JS.Value.string "100" = .string (toString n) → updated.amount = .finite n) ∧
        (JS.Value.string "100" = .string ("-" ++ toString n) →
          updated.amount = .finite (-(n : ℚ)))) ∧
      categoryOrGeneral .undefined = some updated.category ∧
      ((JS.Value.undefined = .undefined ∨ JS.Value.undefined = .null) →
        updated.category = "General") ∧
      (∀ c, JS.Value.undefined = .string c →
        (JS.IsBlank c → updated.category = "General") ∧
        (¬ JS.IsBlank c → JS.IsTrimmed c updated.category)) ∧
      updated.date = sampleEnv.newDate (.number (.finite 1709337600000)) ∧
      updated.type = typeOrSign .undefined (.string "100") ∧
      (JS.Value.undefined.toBoolean = true → updated.type = .undefined) ∧
      (JS.Value.undefined = .undefined → ∀ q, updated.amount = .finite q →
        (0 < q → updated.type = .string "income") ∧
        (q < 0 → updated.type = .string "expense"))) ∧
    handler sampleEnv .PUT
        { id := .string "000000000000000000000001", description := .string "  Refund\t",
          amount := .string "100", date := .number (.finite 1709337600000) }
        [sampleSalary, sampleCoffee] =
      ({ status := 200,
         body := .doc
           { _id := 1, description := "Refund", amount := .finite 100,
             category := "General", date := 1709337600000, type := .string "income",
             createdAt := 1700000000000, updatedAt := some 1700000000000 } },
        [sampleSalary,
         { _id := 1, description := "Refund", amount := .finite 100,
           category := "General", date := 1709337600000, type := .string "income",
           createdAt := 1700000000000, updatedAt := some 1700000000000 }]) :=
  ⟨update_replaces_fields sampleEnv
      { id := .string "000000000000000000000001", description := .string "  Refund\t",
        amount := .string "100", date := .number (.finite 1709337600000) }
      [sampleSalary, sampleCoffee] (by decide!),
    by decide!⟩

/-- C10: a POST with a non-empty string `description`, an `amount` that is
present and passes `isNaN`, a truthy `date` and an absent, `null` or string
`category` is answered (when the generated `_id` is new to the collection) with
status 201 and the stored record.  Its `amount` is `parseFloat(amount)`: a
number is stored as it is, the text of a whole number (with or without a minus
sign) as that number.  Its `description` is the input trimmed: the input with
the white space at both ends, and nothing else, removed.  Its `category` is
`"General"` when the input has none or a blank one (empty or white space only),
and the input category trimmed otherwise. -/
theorem create_normalises (env : Env) (body : Body) (collection : List Doc) (s : String)
    (hdesc : body.description = .string s) (hs : s ≠ "")
    (hamount : body.amount ≠ .undefined ∧ body.amount ≠ .null)
    (hnan : JS.isNaN body.amount = false) (hdate : body.date.toBoolean = true)
    (hcat : body.category = .undefined ∨ body.category = .null ∨
      ∃ c, body.category = .string c)
    (hfresh : ∀ d ∈ collection, d._id ≠ env.insertedId) :
    ∃ d, handler env .POST body collection =
        ({ status := 201, body := .doc d }, collection ++ [d]) ∧
      d.amount = JS.parseFloat body.amount ∧
      (∀ n : JS.Number, body.amount = .number n → d.amount = n) ∧
      (∀ n : Nat, (n : ℚ) < (2 : ℚ) ^ 1024 - (2 : ℚ) ^ 970 →
        (body.amount = .string (toString n) → d.amount = .finite n) ∧
        (body.amount = .string ("-" ++ toString n) → d.amount = .finite (-(n : ℚ)))) ∧
      d.description = JS.trim s ∧
      JS.IsTrimmed s d.description ∧
      ((body.category = .undefined ∨ body.category = .null) → d.category = "General") ∧
      (∀ c, body.category = .string c →
        (d.category = if JS.trim c = "" then "General" else JS.trim c) ∧
        (JS.IsBlank c → d.category = "General") ∧
        (¬ JS.IsBlank c → JS.IsTrimmed c d.category)) := by
  have hmiss : missingRequired body = false := by
    unfold missingRequired
    rw [hdate, hdesc]
    simp [JS.Value.toBoolean, hs, hamount.1, hamount.2]
  obtain ⟨cat, hcatv⟩ : ∃ cat, categoryOrGeneral body.category = some cat := by
    rcases hcat with h | h | ⟨c, h⟩ <;> rw [h] <;> simp [categoryOrGeneral]
  have hf : normalise env body = some
      { description := JS.trim s, amount := JS.parseFloat body.amount, category := cat,
        date := env.newDate body.date, type := typeOrSign body.type body.amount } := by
    simp [normalise, hdesc, callTrim, hcatv]
  obtain ⟨hnum, hint⟩ := parseFloat_reads body.amount
  obtain ⟨hc1, hc2⟩ := categoryOrGeneral_spec body.category cat hcatv
  refine ⟨_, post_valid env body collection _ hmiss hnan hf hfresh, rfl, hnum, hint, rfl,
    JS.isTrimmed_trim s, hc1, ?_⟩
  intro c h
  refine ⟨?_, hc2 c h⟩
  rw [h] at hcatv
  simp only [categoryOrGeneral, Option.some.injEq] at hcatv
  simp only [created]
  exact hcatv.symm

theorem create_normalises_witness :
    (∃ d, handler sampleEnv .POST
        { description := .string "  Coffee\t", amount := .string "-4.50",
          category := .string " \t ", date := .number (.finite 1709251200000) } [] =
        ({ status := 201, body := .doc d }, [] ++ [d]) ∧
      d.amount = JS.parseFloat (.string "-4.50") ∧
      (∀ n : JS.Number, JS.Value.string "-4.50" = .number n → d.amount = n) ∧
      (∀ n : Nat, (n : ℚ) < (2 : ℚ) ^ 1024 - (2 : ℚ) ^ 970 →
        (JS.Value.string "-4.50" = .string (toString n) → d.amount = .finite n) ∧
        (JS.Value.string "-4.50" = .string ("-" ++ toString n) →
          d.amount = .finite (-(n : ℚ)))) ∧
      d.description = JS.trim "  Coffee\t" ∧
      JS.IsTrimmed "  Coffee\t" d.description ∧
      ((JS.Value.string " \t " = .undefined ∨ JS.Value.string " \t " = .null) →
        d.category = "General") ∧
      (∀ c, JS.Value.string " \t " = .string c →
        (d.category = if JS.trim c = "" then "General" else JS.trim c) ∧
        (JS.IsBlank c → d.category = "General") ∧
        (¬ JS.IsBlank c → JS.IsTrimmed c d.category))) ∧
    handler sampleEnv .POST
        { description := .string "  Coffee\t", amount := .string "-4.50",
          category := .string " \t ", date := .number (.finite 1709251200000) } [] =
      ({ status := 201,
         body := .doc
           { _id := 1, description := "Coffee", amount := .finite (-9 / 2),
             category := "General", date := 1709251200000, type := .string "expense",
             createdAt := 1700000000000, updatedAt := none } },
        [{ _id := 1, description := "Coffee", amount := .finite (-9 / 2),
           category := "General", date := 1709251200000, type := .string "expense",
           createdAt := 1700000000000, updatedAt := none }]) :=
  ⟨create_normalises sampleEnv
      { description := .string "  Coffee\t", amount := .string "-4.50",
        category := .string " \t ", date := .number (.finite 1709251200000) } [] "  Coffee\t"
      rfl (by decide) ⟨by decide, by decide⟩ (by decide!) (by decide)
      (Or.inr (Or.inr ⟨" \t ", rfl⟩)) (by simp),
    by decide!⟩

end Api

namespace Api

theorem sortsBefore_total (a b : Doc) : sortsBefore a b ∨ sortsBefore b a := by
  unfold sortsBefore
  rcases lt_trichotomy a.date b.date with h | h | h
  · exact Or.inr (Or.inl h)
  · rcases le_total a._id b._id with hi | hi
    · exact Or.inr (Or.inr ⟨h.symm, hi⟩)
    · exact Or.inl (Or.inr ⟨h, hi⟩)
  · exact Or.inl (Or.inl h)

theorem sortsBefore_trans (a b c : Doc) (hab : sortsBefore a b) (hbc : sortsBefore b c) :
    sortsBefore a c := by
  unfold sortsBefore at *
  rcases hab with h1 | ⟨h1, i1⟩ <;> rcases hbc with h2 | ⟨h2, i2⟩
  · exact Or.inl (h2.trans h1)
  · exact Or.inl (h2 ▸ h1)
  · exact Or.inl (h1 ▸ h2)
  · exact Or.inr ⟨h1.trans h2, i2.trans i1⟩

theorem findSorted_sorted (collection : List Doc) :
    (findSorted collection).Pairwise sortsBefore :=
  @List.sorted_insertionSort Doc sortsBefore _ ⟨sortsBefore_total⟩ ⟨sortsBefore_trans⟩
    collection

/-- Two listings of the same documents in the order of the sort are equal when
no two of the documents share an `_id`. -/
theorem sorted_listing_unique : ∀ (l1 l2 : List Doc), l1.Perm l2 →
    l1.Pairwise sortsBefore → l2.Pairwise sortsBefore →
    (l1.map (fun d => d._id)).Nodup → l1 = l2 := by
  intro l1
  induction l1 with
  | nil => intro l2 hp _ _ _; exact hp.nil_eq
  | cons a t1 ih =>
    intro l2 hp h1 h2 hnd
    cases l2 with
    | nil => exact absurd hp.length_eq (by simp)
    | cons b t2 =>
      simp only [List.map_cons, List.nodup_cons] at hnd
      have hab : a = b := by
        by_contra hne
        have ha : a ∈ t2 := by
          have := hp.subset (List.mem_cons_self a t1)
          rcases List.mem_cons.mp this with h | h
          · exact absurd h hne
          · exact h
        have hb : b ∈ t1 := by
          have := hp.symm.subset (List.mem_cons_self b t2)
          rcases List.mem_cons.mp this with h | h
          · exact absurd h.symm hne
          · exact h
        have r1 : sortsBefore a b := (List.pairwise_cons.mp h1).1 b hb
        have r2 : sortsBefore b a := (List.pairwise_cons.mp h2).1 a ha
        have hid : a._id = b._id := by
          unfold sortsBefore at r1 r2
          rcases r1 with h | ⟨e1, i1⟩ <;> rcases r2 with h' | ⟨e2, i2⟩
          · exact absurd h (lt_asymm h')
          · exact absurd h (e2 ▸ lt_irrefl _)
          · exact absurd h' (e1 ▸ lt_irrefl _)
          · exact le_antisymm i2 i1
        exact hnd.1 (List.mem_map.mpr ⟨b, hb, hid.symm⟩)
      subst hab
      rw [ih t2 (List.Perm.cons_inv hp) (List.pairwise_cons.mp h1).2
        (List.pairwise_cons.mp h2).2 hnd.2]

/-- C11: GET is answered with status 200 and a listing that holds every stored
document exactly once (it is a permutation of the collection), in which of any
two documents the one listed first has the later `date` or, for equal dates, the
larger `_id`; the collection is left as it was.  With `_id` unique, a collection
holding the same documents in another insertion order gives the same listing. -/
theorem list_sorted_by_date_then_id (env : Env) (body : Body) (collection : List Doc) :
    ∃ listed,
      handler env .GET body collection = ({ status := 200, body := .docs listed }, collection) ∧
      listed.Perm collection ∧
      listed.Pairwise
        (fun a b => b.date < a.date ∨ (a.date = b.date ∧ b._id ≤ a._id)) ∧
      ∀ other : List Doc, other.Perm collection →
        (collection.map (fun d => d._id)).Nodup →
          (handler env .GET body other).1 = { status := 200, body := .docs listed } := by
  refine ⟨findSorted collection, rfl, List.perm_insertionSort _ _, findSorted_sorted collection,
    ?_⟩
  intro other hsame hunique
  have hperm : (findSorted other).Perm (findSorted collection) :=
    (List.perm_insertionSort _ _).trans (hsame.trans (List.perm_insertionSort _ _).symm)
  have hnd : ((findSorted other).map (fun d => d._id)).Nodup :=
    ((hperm.trans (List.perm_insertionSort _ _)).map (fun d => d._id)).nodup_iff.mpr hunique
  have := sorted_listing_unique _ _ hperm (findSorted_sorted other)
    (findSorted_sorted collection) hnd
  simp only [handler, this]

theorem list_sorted_by_date_then_id_witness :
    ∃ listed,
      handler sampleEnv .GET {} [sampleCoffee, sampleSalary] =
        ({ status := 200, body := .docs listed }, [sampleCoffee, sampleSalary]) ∧
      listed.Perm [sampleCoffee, sampleSalary] ∧
      listed.Pairwise
        (fun a b => b.date < a.date ∨ (a.date = b.date ∧ b._id ≤ a._id)) ∧
      (handler sampleEnv .GET {} [sampleSalary, sampleCoffee]).1
        = { status := 200, body := .docs listed } :=
  match list_sorted_by_date_then_id sampleEnv {} [sampleCoffee, sampleSalary] with
  | ⟨listed, h1, h2, h3, h4⟩ =>
    ⟨listed, h1, h2, h3, h4 [sampleSalary, sampleCoffee] (List.Perm.swap _ _ []) (by decide)⟩

end Api

namespace Home

/-- C12: with an edit target set, a successful Edit call leaves the list with
the same length and order, puts the returned record at every position whose
record has the returned record's `_id`, leaves every other position as it was,
and clears the edit target; a failed Edit call (a response that is not `ok`, or
a rejected request) leaves the list as it was and keeps the same edit target. -/
theorem edit_reconciles_list (state : State) (target : Transaction)
    (hediting : state.editingTransaction = some target) :
    (∀ updated : Transaction,
      (handleEditTransaction state (.ok updated)).transactions.length
          = state.transactions.length ∧
        (∀ (i : Nat) (t : Transaction), state.transactions[i]? = some t →
          (t._id = updated._id →
            (handleEditTransaction state (.ok updated)).transactions[i]? = some updated) ∧
          (t._id ≠ updated._id →
            (handleEditTransaction state (.ok updated)).transactions[i]? = some t)) ∧
        (handleEditTransaction state (.ok updated)).editingTransaction = none) ∧
      (∀ reply : Reply, (∀ updated, reply ≠ .ok updated) →
        (handleEditTransaction state reply).transactions = state.transactions ∧
          (handleEditTransaction state reply).editingTransaction = some target) := by
  constructor
  · intro updated
    simp only [handleEditTransaction, hediting, List.length_map, List.getElem?_map, true_and,
      and_true]
    intro i t hi
    rw [hi]
    constructor
    · intro h; simp [h]
    · intro h; simp [h]
  · intro reply hfail
    cases reply with
    | rejected message => simp [handleEditTransaction, hediting]
    | notOk error => simp [handleEditTransaction, hediting]
    | ok updated => exact absurd rfl (hfail updated)

theorem edit_reconciles_list_witness :
    (∀ updated : Transaction,
      (handleEditTransaction sampleState (.ok updated)).transactions.length
          = sampleState.transactions.length ∧
        (∀ (i : Nat) (t : Transaction), sampleState.transactions[i]? = some t →
          (t._id = updated._id →
            (handleEditTransaction sampleState (.ok updated)).transactions[i]?
              = some updated) ∧
          (t._id ≠ updated._id →
            (handleEditTransaction sampleState (.ok updated)).transactions[i]? = some t)) ∧
        (handleEditTransaction sampleState (.ok updated)).editingTransaction = none) ∧
      (∀ reply : Reply, (∀ updated, reply ≠ .ok updated) →
        (handleEditTransaction sampleState reply).transactions = sampleState.transactions ∧
          (handleEditTransaction sampleState reply).editingTransaction = some sampleTarget) :=
  edit_reconciles_list sampleState sampleTarget rfl

end Home

namespace TransactionForm

theorem keys_eq_zero (e : Errors) :
    e.keys = 0 ↔ e.amount = none ∧ e.date = none ∧ e.description = none := by
  obtain ⟨a, d, p⟩ := e
  cases a <;> cases d <;> cases p <;> simp [Errors.keys]

theorem validateForm_iff_checks (formData : FormData) :
    validateForm formData = true ↔
      (formData.amount.toBoolean = true ∧ JS.isNaN formData.amount = false ∧
        parsesToZero formData.amount = false) ∧
      formData.date ≠ "" ∧
      (JS.trim formData.description ≠ "" ∧ 3 ≤ length (JS.trim formData.description)) := by
  unfold validateForm
  rw [decide_eq_true_eq, keys_eq_zero]
  simp only [newErrors]
  refine and_congr ?_ (and_congr ?_ ?_)
  · cases formData.amount.toBoolean <;> cases JS.isNaN formData.amount <;>
      cases parsesToZero formData.amount <;> simp
  · by_cases hd : formData.date = "" <;> simp [hd]
  · by_cases ht : JS.trim formData.description = ""
    · simp [ht]
    · by_cases hl : length (JS.trim formData.description) < 3
      · simp [ht, hl]
      · simp [ht, hl, not_lt.mp hl]

theorem length_pos_of_ne_empty (s : String) (h : 3 ≤ length s) : s ≠ "" := by
  intro e
  rw [e] at h
  simp [length] at h

/-- On an amount the form can hold, the three tests of lines 16 to 18 pass
exactly when the amount is a valid non-zero number. -/
theorem amount_checks_iff (v : JS.Value) (hplain : plainAmount v = true) :
    (v.toBoolean = true ∧ JS.isNaN v = false ∧ parsesToZero v = false) ↔
      IsValidNonZero v := by
  cases v with
  | undefined => simp [JS.Value.toBoolean, IsValidNonZero]
  | null => simp [JS.Value.toBoolean, IsValidNonZero]
  | boolean b => simp [plainAmount] at hplain
  | number n =>
    cases n with
    | nan => simp [JS.Value.toBoolean, IsValidNonZero]
    | posInf => simp [plainAmount] at hplain
    | negInf => simp [plainAmount] at hplain
    | finite q =>
      simp [JS.Value.toBoolean, IsValidNonZero, JS.isNaN, JS.toNumber, parsesToZero,
        JS.parseFloat]
  | string s =>
    simp only [plainAmount, decide_eq_true_eq] at hplain
    obtain ⟨hne, hradix, hpos, hneg⟩ := hplain
    by_cases hs : s = ""
    · subst hs
      have h0 : JS.stringToNumber "" = .finite 0 := by
        simp [JS.stringToNumber, JS.trimStart]
      simp [JS.Value.toBoolean, IsValidNonZero, h0]
    · have ht : JS.trimStart s.data ≠ [] := by
        rcases hne with h | h
        · exact absurd h hs
        · exact h
      have htrue : (JS.Value.string s).toBoolean = true := by
        simp [JS.Value.toBoolean, hs]
      have hnum : JS.stringToNumber s =
          match JS.scanDecimal (JS.trimStart s.data) with
          | some (v, rest) => if rest.all JS.isWhiteSpace then v else .nan
          | none => .nan := by
        simp only [JS.stringToNumber, ht, if_false, hradix]
      simp only [IsValidNonZero, htrue, true_and, JS.isNaN, JS.toNumber, parsesToZero,
        JS.parseFloat]
      rw [hnum] at hpos hneg ⊢
      cases hd : JS.scanDecimal (JS.trimStart s.data) with
      | none => simp
      | some vr =>
        obtain ⟨v, rest⟩ := vr
        rw [hd] at hpos hneg
        simp only at hpos hneg ⊢
        by_cases hall : rest.all JS.isWhiteSpace = true
        · rw [if_pos hall] at hpos hneg ⊢
          cases v with
          | nan => simp
          | posInf => exact absurd rfl hpos
          | negInf => exact absurd rfl hneg
          | finite q => simp
        · rw [if_neg hall]
          simp

/-- C13 (the claim at a two-character description): with the amount `5` and a
date, `validateForm` accepts the description made of one character outside the
basic plane and the letter `a`, which has only 2 characters after trimming; its
JavaScript `length` is 3. -/
theorem validateForm_accepts_two_characters :
    validateForm
        { amount := .number (.finite 5), date := "2024-03-01",
          description := String.mk [Char.ofNat 128512, 'a'] } = true ∧
      (JS.trim (String.mk [Char.ofNat 128512, 'a'])).data.length = 2 ∧
      length (JS.trim (String.mk [Char.ofNat 128512, 'a'])) = 3 := by
  decide!

/-- C13 (amended): on an amount the form can hold, `validateForm` returns true
(and then records no error) if and only if the amount is a valid non-zero
number, the date is not empty and the description trimmed has a JavaScript
`length` (its number of UTF-16 code units) of at least 3; whenever
`validateForm` returns false, `handleSubmit` does not call `onSubmit`. -/
theorem validateForm_accepts_iff (formData : FormData)
    (hamount : plainAmount formData.amount = true) :
    (validateForm formData = true ↔
        IsValidNonZero formData.amount ∧ formData.date ≠ "" ∧
          ∃ t, JS.IsTrimmed formData.description t ∧ 3 ≤ length t) ∧
      (validateForm formData = true → newErrors formData = {}) ∧
      (validateForm formData = false → handleSubmit formData = none) := by
  refine ⟨?_, ?_, ?_⟩
  · rw [validateForm_iff_checks, amount_checks_iff _ hamount]
    constructor
    · rintro ⟨ha, hd, _, hl⟩
      exact ⟨ha, hd, JS.trim formData.description, JS.isTrimmed_trim _, hl⟩
    · rintro ⟨ha, hd, t, ht, hl⟩
      have : JS.trim formData.description = t := JS.trim_eq_of_isTrimmed _ _ ht
      rw [this]
      exact ⟨ha, hd, length_pos_of_ne_empty _ hl, hl⟩
  · intro hv
    unfold validateForm at hv
    rw [decide_eq_true_eq, keys_eq_zero] at hv
    obtain ⟨h1, h2, h3⟩ := hv
    cases he : newErrors formData with
    | mk a d p =>
      rw [he] at h1 h2 h3
      simp only at h1 h2 h3
      rw [h1, h2, h3]
  · intro hv
    simp [handleSubmit, hv]

theorem validateForm_accepts_iff_witness :
    ((validateForm sampleForm = true ↔
        IsValidNonZero sampleForm.amount ∧ sampleForm.date ≠ "" ∧
          ∃ t, JS.IsTrimmed sampleForm.description t ∧ 3 ≤ length t) ∧
      (validateForm sampleForm = true → newErrors sampleForm = {}) ∧
      (validateForm sampleForm = false → handleSubmit sampleForm = none)) ∧
    validateForm sampleForm = true ∧
    handleSubmit sampleForm =
      some { amount := .finite (-9 / 2), date := "2024-03-01", description := "Coffee" } ∧
    validateForm { sampleForm with amount := .string "0" } = false ∧
    validateForm { sampleForm with amount := .string "1e-400" } = false ∧
    validateForm { sampleForm with description := " ab " } = false :=
  ⟨validateForm_accepts_iff sampleForm (by decide!),
    by decide!, by decide!, by decide!, by decide!, by decide!⟩

end TransactionForm
